import Mathlib

/-!
Verification development for the guide subsystem of the shifter rigging
toolkit (source file: src/shifter/guide.py).

The Python code is shallowly embedded below.  Python dictionaries are
modelled as association lists with insertion-order semantics (`aset`
replaces an existing key in place and appends a fresh key at the end,
exactly like CPython dict assignment); Python `None` is `Value.vnull`
for attribute values and `Option.none` for object references; operations
that can raise an uncaught exception return `Option` and model the raise
as `none`.  Real-valued quantities are modelled over `Rat`.  External
collaborators (the Maya scene API, the mgear attribute/curve/vector
helpers and the per-component-type plugin guides) are abstracted as the
fields of a `Lib` record; functions whose body lives outside this
repository but whose contract the spec fixes are defined below with a
doc comment starting with the words Modelled from the spec.

String literals are bound to named constants throughout.
-/

/-- Key used by several structures: the string "comp_type". -/
def kCompType : String := "comp_type"

/-- Key "comp_name". -/
def kCompName : String := "comp_name"

/-- Key "comp_side". -/
def kCompSide : String := "comp_side"

/-- Key "comp_index". -/
def kCompIndex : String := "comp_index"

/-- Attribute name "isGearGuide". -/
def kIsGearGuide : String := "isGearGuide"

/-- Attribute name "ismodel". -/
def kIsModel : String := "ismodel"

/-- Node name "controllers_org". -/
def kControllersOrg : String := "controllers_org"

/-- Option key "size". -/
def kSize : String := "size"

/-- The underscore separator used by the naming convention. -/
def kUnderscore : String := "_"

/-- The pipe character used by Maya long names. -/
def kPipe : String := "|"

/-- Suffix appended to the old guide root by Rig.update. -/
def kOldSuffix : String := "_old"

/-- The empty string, used as the null parent marker in templates. -/
def kEmpty : String := ""

/-- Attribute type string "enum". -/
def kEnumType : String := "enum"

/-- Attribute type string "fcurve". -/
def kFCurveType : String := "fcurve"

/-- Attribute type string "color". -/
def kColorType : String := "color"

set_option linter.unusedSectionVars false

section AssocList

variable {κ : Type} {α : Type} [DecidableEq κ]

/-- Lookup in an association list (Python `d[k]` / `k in d`). -/
def alookup : List (κ × α) → κ → Option α
  | [], _ => none
  | (k, v) :: rest, q => if k = q then some v else alookup rest q

/-- Python dict assignment `d[k] = v`: replace in place if the key is
present, append otherwise. -/
def aset : List (κ × α) → κ → α → List (κ × α)
  | [], q, v => [(q, v)]
  | (k, w) :: rest, q, v =>
    if k = q then (k, v) :: rest else (k, w) :: aset rest q v

/-- Update the entry at a key with a function, leaving the list
unchanged when the key is absent (used for in-place mutation of a
looked-up object). -/
def aupdate : List (κ × α) → κ → (α → α) → List (κ × α)
  | [], _, _ => []
  | (k, w) :: rest, q, f =>
    if k = q then (k, f w) :: rest else (k, w) :: aupdate rest q f

/-- The key list of an association list. -/
def akeys (l : List (κ × α)) : List κ := l.map Prod.fst

@[simp] theorem alookup_nil (q : κ) : alookup ([] : List (κ × α)) q = none := rfl

@[simp] theorem alookup_cons (k : κ) (v : α) (rest : List (κ × α)) (q : κ) :
    alookup ((k, v) :: rest) q = if k = q then some v else alookup rest q := rfl

@[simp] theorem aset_nil (q : κ) (v : α) : aset ([] : List (κ × α)) q v = [(q, v)] := rfl

@[simp] theorem aset_cons (k : κ) (w : α) (rest : List (κ × α)) (q : κ) (v : α) :
    aset ((k, w) :: rest) q v =
      if k = q then (k, v) :: rest else (k, w) :: aset rest q v := rfl

@[simp] theorem aupdate_nil (q : κ) (f : α → α) :
    aupdate ([] : List (κ × α)) q f = [] := rfl

@[simp] theorem aupdate_cons (k : κ) (w : α) (rest : List (κ × α)) (q : κ) (f : α → α) :
    aupdate ((k, w) :: rest) q f =
      if k = q then (k, f w) :: rest else (k, w) :: aupdate rest q f := rfl

theorem alookup_aset_self (l : List (κ × α)) (q : κ) (v : α) :
    alookup (aset l q v) q = some v := by
  induction l with
  | nil => simp [aset, alookup]
  | cons p rest ih =>
    obtain ⟨k, w⟩ := p
    by_cases h : k = q <;> simp [aset, alookup, h, ih]

theorem alookup_aset_ne (l : List (κ × α)) (q q' : κ) (v : α) (h : q ≠ q') :
    alookup (aset l q v) q' = alookup l q' := by
  induction l with
  | nil => simp [aset, alookup, h]
  | cons p rest ih =>
    obtain ⟨k, w⟩ := p
    by_cases hk : k = q
    · subst hk; simp [aset, alookup, h, ih]
    · by_cases hk' : k = q' <;> simp [aset, alookup, hk, hk', Ne.symm h, ih]

theorem alookup_aupdate_self (l : List (κ × α)) (q : κ) (f : α → α) (v : α)
    (h : alookup l q = some v) : alookup (aupdate l q f) q = some (f v) := by
  induction l with
  | nil => simp [alookup] at h
  | cons p rest ih =>
    obtain ⟨k, w⟩ := p
    by_cases hk : k = q
    · subst hk
      simp [alookup] at h
      simp [aupdate, alookup, h]
    · simp [alookup, hk] at h
      simp [aupdate, alookup, hk, ih h]

theorem alookup_aupdate_ne (l : List (κ × α)) (q q' : κ) (f : α → α) (h : q ≠ q') :
    alookup (aupdate l q f) q' = alookup l q' := by
  induction l with
  | nil => simp [aupdate]
  | cons p rest ih =>
    obtain ⟨k, w⟩ := p
    by_cases hk : k = q
    · subst hk; simp [aupdate, alookup, h, ih]
    · by_cases hk' : k = q' <;> simp [aupdate, alookup, hk, hk', Ne.symm h, ih]

theorem alookup_aupdate_none (l : List (κ × α)) (q : κ) (f : α → α)
    (h : alookup l q = none) : aupdate l q f = l := by
  induction l with
  | nil => simp [aupdate]
  | cons p rest ih =>
    obtain ⟨k, w⟩ := p
    by_cases hk : k = q
    · subst hk; simp [alookup] at h
    · simp [alookup, hk] at h
      simp [aupdate, hk, ih h]

@[simp] theorem akeys_nil : akeys ([] : List (κ × α)) = [] := rfl

@[simp] theorem akeys_cons (k : κ) (w : α) (rest : List (κ × α)) :
    akeys ((k, w) :: rest) = k :: akeys rest := rfl

theorem akeys_aset_mem (l : List (κ × α)) (q : κ) (v : α)
    (h : q ∈ akeys l) : akeys (aset l q v) = akeys l := by
  induction l with
  | nil => simp at h
  | cons p rest ih =>
    obtain ⟨k, w⟩ := p
    by_cases hk : k = q
    · simp [aset, hk]
    · rw [akeys_cons] at h
      rcases List.mem_cons.mp h with h | h
      · exact absurd h.symm hk
      · simp [aset, hk, ih h]

theorem akeys_aset_not_mem (l : List (κ × α)) (q : κ) (v : α)
    (h : ¬ q ∈ akeys l) : akeys (aset l q v) = akeys l ++ [q] := by
  induction l with
  | nil => simp [aset]
  | cons p rest ih =>
    obtain ⟨k, w⟩ := p
    rw [akeys_cons] at h
    have h1 : ¬ k = q := fun hkq => h (hkq ▸ List.mem_cons_self k _)
    have h2 : ¬ q ∈ akeys rest := fun hm => h (List.mem_cons_of_mem _ hm)
    simp [aset, h1, ih h2]

theorem alookup_isSome_iff_mem_akeys (l : List (κ × α)) (q : κ) :
    (alookup l q).isSome ↔ q ∈ akeys l := by
  induction l with
  | nil => simp [alookup]
  | cons p rest ih =>
    obtain ⟨k, w⟩ := p
    by_cases hk : k = q
    · subst hk; simp [alookup]
    · simp [alookup, hk, ih, Ne.symm hk]

theorem alookup_some_mem (l : List (κ × α)) (q : κ) (v : α)
    (h : alookup l q = some v) : (q, v) ∈ l := by
  induction l with
  | nil => simp [alookup] at h
  | cons p rest ih =>
    obtain ⟨k, w⟩ := p
    by_cases hk : k = q
    · subst hk
      simp [alookup] at h
      simp [h]
    · simp [alookup, hk] at h
      exact List.mem_cons_of_mem _ (ih h)

theorem akeys_aupdate (l : List (κ × α)) (q : κ) (f : α → α) :
    akeys (aupdate l q f) = akeys l := by
  induction l with
  | nil => simp [aupdate]
  | cons p rest ih =>
    obtain ⟨k, w⟩ := p
    by_cases hk : k = q <;> simp [aupdate, hk, ih]

end AssocList

/-- Python attribute values as stored on guide nodes and in templates:
strings, booleans, integers, reals (`Rat` models Maya doubles), `None`,
and a reference to another scene node (the value recorded for a
connection-driven option). -/
inductive Value where
  | vstr (s : String)
  | vbool (b : Bool)
  | vint (n : Int)
  | vnum (q : Rat)
  | vnull
  | vnode (id : Nat)
  deriving DecidableEq, Repr

/-- A position vector (mgear datatypes.Vector), over `Rat`. -/
def Pos : Type := Rat × Rat × Rat

instance : DecidableEq Pos := by
  unfold Pos
  infer_instance

/-- The zero vector `datatypes.Vector()`. -/
def posZero : Pos := (0, 0, 0)

/-- Embedding of mgear attribute parameter definitions
(attribute.ParamDef2 / enumParamDef / FCurveParamDef as used by
guide.py): the script name, attribute type string, current value, the
optional UI names and range, the four flags, the enumeration items of
an enum parameter and whether the definition is an FCurve parameter. -/
structure ParamDef where
  scriptName : String
  valueType : String
  value : Value
  niceName : Option String := none
  shortName : Option String := none
  minimum : Option Value := none
  maximum : Option Value := none
  keyable : Bool := false
  readable : Bool := true
  storable : Bool := true
  writable : Bool := true
  enumItems : List String := []
  isFCurve : Bool := false
  deriving DecidableEq, Repr

namespace Main

/-- State of the Main guide class (guide.py lines 38-60): the ordered
parameter name list, the parameter definition dictionary, the option
value dictionary and the validity latch. -/
structure State where
  paramNames : List String
  paramDefs : List (String × ParamDef)
  values : List (String × Value)
  valid : Bool
  deriving DecidableEq, Repr

/-- Main.__init__ (guide.py lines 55-60). -/
def init : State :=
  { paramNames := [], paramDefs := [], values := [], valid := true }

/-- Main.setParamDefValue (guide.py lines 79-99): returns False and
leaves the state untouched when the script name is unknown, otherwise
updates both the definition value and the mirrored values entry and
returns True. -/
def setParamDefValue (st : State) (scriptName : String) (value : Value) :
    Bool × State :=
  match alookup st.paramDefs scriptName with
  | none => (false, st)
  | some pd =>
    (true,
      { st with
        paramDefs := aset st.paramDefs scriptName { pd with value := value }
        values := aset st.values scriptName value })

/-- Main.addParam (guide.py lines 152-183): builds a ParamDef2, stores
it under the script name, mirrors the default into values and appends
the script name to paramNames (no duplicate check). -/
def addParam (st : State) (scriptName valueType : String) (value : Value)
    (minimum maximum : Option Value) (keyable readable storable writable : Bool)
    (niceName shortName : Option String) : State :=
  let pd : ParamDef :=
    { scriptName := scriptName, valueType := valueType, value := value,
      niceName := niceName, shortName := shortName,
      minimum := minimum, maximum := maximum,
      keyable := keyable, readable := readable,
      storable := storable, writable := writable }
  { st with
    paramDefs := aset st.paramDefs scriptName pd
    values := aset st.values scriptName value
    paramNames := st.paramNames ++ [scriptName] }

/-- Main.addParam with the Python default arguments. -/
def addParamD (st : State) (scriptName valueType : String) (value : Value) : State :=
  addParam st scriptName valueType value none none false true true true none none

/-- Main.addEnumParam (guide.py lines 204-221). -/
def addEnumParam (st : State) (scriptName : String) (enum : List String)
    (value : Value) : State :=
  let pd : ParamDef :=
    { scriptName := scriptName, valueType := kEnumType, value := value,
      enumItems := enum }
  { st with
    paramDefs := aset st.paramDefs scriptName pd
    values := aset st.values scriptName value
    paramNames := st.paramNames ++ [scriptName] }

/-- Main.addFCurveParam (guide.py lines 185-202): the mirrored values
entry is set to None. -/
def addFCurveParam (st : State) (scriptName : String) (value : Value) : State :=
  let pd : ParamDef :=
    { scriptName := scriptName, valueType := kFCurveType, value := value,
      isFCurve := true }
  { st with
    paramDefs := aset st.paramDefs scriptName pd
    values := aset st.values scriptName Value.vnull
    paramNames := st.paramNames ++ [scriptName] }

/-- Main.addColorParam (guide.py lines 135-150): registers the
definition and the name but, unlike addParam, stores nothing in
values. -/
def addColorParam (st : State) (scriptName : String) (value : Value) : State :=
  let pd : ParamDef :=
    { scriptName := scriptName, valueType := kColorType, value := value }
  { st with
    paramDefs := aset st.paramDefs scriptName pd
    paramNames := st.paramNames ++ [scriptName] }

/-- Main.setParamDefValuesFromDict inner fold (guide.py lines 101-104):
iterates the paramDefs items and bulk-sets each value from the mapping;
a missing key raises KeyError, modelled as `none`. -/
def setFromDictGoM (valuesDict : List (String × Value)) :
    State → List (String × ParamDef) → Option State
  | st, [] => some st
  | st, (s, pd) :: rest =>
    match alookup valuesDict s with
    | none => none
    | some v =>
      setFromDictGoM valuesDict
        { st with
          paramDefs := aset st.paramDefs s { pd with value := v }
          values := aset st.values s v }
        rest

/-- Main.setParamDefValuesFromDict (guide.py lines 101-104). -/
def setParamDefValuesFromDict (st : State) (valuesDict : List (String × Value)) :
    Option State :=
  setFromDictGoM valuesDict st st.paramDefs

end Main

/-- Embedding of the per-component guide object as seen by guide.py: its
unique full name, component type, scene root reference (none when not
yet materialised), parent link (stored as a key into the graph's
components map, following the design note on weak back-references),
attachment-point name on the parent, recorded children, parameter
snapshot (also serving as the object's values dictionary), recorded
attachment-point positions and the validity flag of its own populate
step. -/
structure CompGuide where
  fullName : String
  comp_type : String
  root : Option Nat
  parentComponent : Option String
  parentLocalName : Option String
  child_components : List String
  paramValues : List (String × Value)
  apos : List Pos
  valid : Bool
  deriving DecidableEq

/-- Assignment of the two parent-link fields of a component guide
(`comp.parentComponent = ...; comp.parentLocalName = ...`). -/
def setParentFields (pn ln : String) (c : CompGuide) : CompGuide :=
  { c with parentComponent := some pn, parentLocalName := some ln }

/-- A scene-graph subtree (the slice of the Maya DAG that guide.py
reads): node id, node short name, attribute dictionary, incoming
connection per attribute (the source node of listConnections), and the
transform children in order. -/
inductive STree where
  | mk (id : Nat) (name : String) (attrs : List (String × Value))
      (cnx : List (String × Nat)) (children : List STree)

/-- Node id of the root of a subtree. -/
def STree.rootId : STree → Nat
  | .mk i _ _ _ _ => i

/-- Short name of the root of a subtree. -/
def STree.rootName : STree → String
  | .mk _ n _ _ _ => n

/-- Attributes of the root of a subtree. -/
def STree.rootAttrs : STree → List (String × Value)
  | .mk _ _ a _ _ => a

/-- Incoming connections of the root of a subtree. -/
def STree.rootCnx : STree → List (String × Nat)
  | .mk _ _ _ c _ => c

/-- Children of the root of a subtree. -/
def STree.childrenOf : STree → List STree
  | .mk _ _ _ _ ch => ch

mutual

/-- Scene query: the id of the parent of the node with the given id
(none for the tree root itself or an unknown id); models
PyNode.getParent(). -/
def parentOf : STree → Nat → Option Nat
  | .mk i _ _ _ ch, target => parentOfL i ch target

/-- Helper of parentOf over a child list whose parent has id `pid`. -/
def parentOfL (pid : Nat) : List STree → Nat → Option Nat
  | [], _ => none
  | c :: cs, target =>
    if c.rootId = target then some pid
    else
      match parentOf c target with
      | some r => some r
      | none => parentOfL pid cs target

end

mutual

/-- Scene query: the subtree rooted at the node with the given id. -/
def nodeById : STree → Nat → Option STree
  | .mk i n a cx ch, target =>
    if i = target then some (.mk i n a cx ch) else nodeByIdL ch target

/-- Helper of nodeById over a child list. -/
def nodeByIdL : List STree → Nat → Option STree
  | [], _ => none
  | c :: cs, target =>
    match nodeById c target with
    | some r => some r
    | none => nodeByIdL cs target

end

mutual

/-- Scene query: first node in the subtree with the given short name
(models mgear dag.findChild searching below a root). -/
def findChildByName : STree → String → Option STree
  | .mk i n a cx ch, target =>
    if n = target then some (.mk i n a cx ch) else findChildByNameL ch target

/-- Helper of findChildByName over a child list. -/
def findChildByNameL : List STree → String → Option STree
  | [], _ => none
  | c :: cs, target =>
    match findChildByName c target with
    | some r => some r
    | none => findChildByNameL cs target

end

/-- External collaborators of guide.py, collected in one record.  Every
field abstracts an interface that lives outside the embedded core: the
environment strings read at Rig.addParameters time, the scene queries
used by get_guide_template_dict and draw_guide, the per-component
plugin guides (shifter.importComponentGuide and the component Guide
class methods getObjects3, getName, draw), the mgear helpers
fcurve.getFCurveValues and vector.getDistance, and the controls shape
buffer collection. -/
structure Lib where
  user : String
  date : String
  mayaVersion : String
  gearVersion : String
  modelTra : Value
  modelName : String
  ctlBuffers : Option Value
  newComponentGuide : String → CompGuide
  compFromNode : STree → CompGuide
  getObjects3 : CompGuide → Nat → List (String × Option Nat)
  getFCurveValues : Nat → Value
  getDistance : Pos → Pos → Rat
  getName : String → String → String
  resolveNode : Nat → String → Option Nat
  topAncestor : Nat → Option Nat
  nodeHasAttr : Nat → String → Bool
  freshModelId : Nat

/-- Modelled from the spec: the value field of
attribute.ParamDef.get_as_dict (mgear.core.attribute, not part of this
repository).  Scalar, enum, string and bool parameters serialise their
current value; curve-valued parameters are the documented lossy
exception and serialise as a null placeholder. -/
def paramAsDictValue (pd : ParamDef) : Value :=
  if pd.isFCurve then Value.vnull else pd.value

namespace Main

/-- Inner fold of Main.setParamDefValuesFromProperty (guide.py lines
106-133) over the paramDefs items of the given node attributes and
connections: a missing attribute logs a warning and latches valid to
false; an FCurve definition samples the driving curve (crashing with
IndexError, modelled none, when no connection exists); a connected
attribute stores None in the definition and the source node in values;
otherwise the plain attribute value is read into both. -/
def propGo (lib : Lib) (attrs : List (String × Value)) (cnx : List (String × Nat)) :
    State → List (String × ParamDef) → Option State
  | st, [] => some st
  | st, (s, pd) :: rest =>
    if (alookup attrs s).isNone then
      propGo lib attrs cnx { st with valid := false } rest
    else
      match alookup cnx s with
      | some src =>
        if pd.isFCurve then
          propGo lib attrs cnx
            { st with
              paramDefs := aset st.paramDefs s
                { pd with value := lib.getFCurveValues src }
              values := aset st.values s (lib.getFCurveValues src) } rest
        else
          propGo lib attrs cnx
            { st with
              paramDefs := aset st.paramDefs s { pd with value := Value.vnull }
              values := aset st.values s (Value.vnode src) } rest
      | none =>
        if pd.isFCurve then none
        else
          propGo lib attrs cnx
            { st with
              paramDefs := aset st.paramDefs s
                { pd with value := (alookup attrs s).getD Value.vnull }
              values := aset st.values s ((alookup attrs s).getD Value.vnull) } rest

/-- Main.setParamDefValuesFromProperty (guide.py lines 106-133). -/
def setParamDefValuesFromProperty (lib : Lib) (attrs : List (String × Value))
    (cnx : List (String × Nat)) (st : State) : Option State :=
  propGo lib attrs cnx st st.paramDefs

/-- Inner fold of Main.get_param_values (guide.py lines 223-229):
projects each declared parameter to the value field of its
get_as_dict serialisation.  A paramNames entry missing from paramDefs
raises KeyError, modelled none. -/
def getParamValuesGo (st : State) :
    List (String × Value) → List String → Option (List (String × Value))
  | acc, [] => some acc
  | acc, pn :: rest =>
    match alookup st.paramDefs pn with
    | none => none
    | some pd => getParamValuesGo st (aset acc pn (paramAsDictValue pd)) rest

/-- Main.get_param_values (guide.py lines 223-229). -/
def get_param_values (st : State) : Option (List (String × Value)) :=
  getParamValuesGo st [] st.paramNames

end Main

/-- State of the Rig guide class (guide.py lines 236-277): the Main
registry state plus controllers, components, componentsIndex, the
legacy parents list and the model node reference.  The transient
guide_template_dict attribute is represented by the return value of
get_guide_template_dict below. -/
structure RigState extends Main.State where
  controllers : List (String × Nat)
  components : List (String × CompGuide)
  componentsIndex : List String
  parents : List String
  model : Option Nat
  deriving DecidableEq

/-- Replace the Main registry part of a Rig state. -/
def RigState.withMain (rig : RigState) (m : Main.State) : RigState :=
  { rig with toState := m }

/-- In-place mutation of one registered component object
(`self.components[k].field = v` in Python). -/
def updateComp (rig : RigState) (k : String) (f : CompGuide → CompGuide) : RigState :=
  { rig with components := aupdate rig.components k f }

/-- Parameter name "rig_name". -/
def kRigName : String := "rig_name"

/-- Parameter name "mode". -/
def kMode : String := "mode"

/-- Parameter name "step". -/
def kStep : String := "step"

/-- Parameter name "classicChannelNames". -/
def kClassicChannelNames : String := "classicChannelNames"

/-- Parameter name "proxyChannels". -/
def kProxyChannels : String := "proxyChannels"

/-- Parameter name "worldCtl". -/
def kWorldCtl : String := "worldCtl"

/-- Parameter name "importSkin". -/
def kImportSkin : String := "importSkin"

/-- Parameter name "skin". -/
def kSkin : String := "skin"

/-- Parameter name "L_color_fk". -/
def kLColorFk : String := "L_color_fk"

/-- Parameter name "L_color_ik". -/
def kLColorIk : String := "L_color_ik"

/-- Parameter name "R_color_fk". -/
def kRColorFk : String := "R_color_fk"

/-- Parameter name "R_color_ik". -/
def kRColorIk : String := "R_color_ik"

/-- Parameter name "C_color_fk". -/
def kCColorFk : String := "C_color_fk"

/-- Parameter name "C_color_ik". -/
def kCColorIk : String := "C_color_ik"

/-- Parameter name "joint_rig". -/
def kJointRig : String := "joint_rig"

/-- Parameter name "force_uniScale". -/
def kForceUniScale : String := "force_uniScale"

/-- Parameter name "synoptic". -/
def kSynoptic : String := "synoptic"

/-- Parameter name "doPreCustomStep". -/
def kDoPreCustomStep : String := "doPreCustomStep"

/-- Parameter name "doPostCustomStep". -/
def kDoPostCustomStep : String := "doPostCustomStep"

/-- Parameter name "preCustomStep". -/
def kPreCustomStep : String := "preCustomStep"

/-- Parameter name "postCustomStep". -/
def kPostCustomStep : String := "postCustomStep"

/-- Parameter name "comments". -/
def kComments : String := "comments"

/-- Parameter name "user". -/
def kUser : String := "user"

/-- Parameter name "date". -/
def kDate : String := "date"

/-- Parameter name "maya_version". -/
def kMayaVersion : String := "maya_version"

/-- Parameter name "gear_version". -/
def kGearVersion : String := "gear_version"

/-- Attribute type string "string". -/
def kStringType : String := "string"

/-- Attribute type string "bool". -/
def kBoolType : String := "bool"

/-- Attribute type string "long". -/
def kLongType : String := "long"

/-- Default rig name "rig". -/
def vRig : String := "rig"

/-- Enum item "Final". -/
def vFinal : String := "Final"

/-- Enum item "WIP". -/
def vWIP : String := "WIP"

/-- Enum item "All Steps". -/
def vAllSteps : String := "All Steps"

/-- Enum item "Objects". -/
def vObjects : String := "Objects"

/-- Enum item "Properties". -/
def vProperties : String := "Properties"

/-- Enum item "Operators". -/
def vOperators : String := "Operators"

/-- Enum item "Connect". -/
def vConnect : String := "Connect"

/-- Enum item "Joints". -/
def vJoints : String := "Joints"

/-- Enum item "Finalize". -/
def vFinalize : String := "Finalize"

namespace Rig

/-- Rig.addParameters (guide.py lines 279-348) applied to a Main
registry state: the full rig option declaration sequence.  The four
environment strings (current user, date, Maya version, mgear version)
come from the external collaborators. -/
def addParameters (lib : Lib) (st : Main.State) : Main.State :=
  let st := Main.addParamD st kRigName kStringType (Value.vstr vRig)
  let st := Main.addEnumParam st kMode [vFinal, vWIP] (Value.vint 0)
  let st := Main.addEnumParam st kStep
    [vAllSteps, vObjects, vProperties, vOperators, vConnect, vJoints, vFinalize]
    (Value.vint 6)
  let st := Main.addParamD st kIsModel kBoolType (Value.vbool true)
  let st := Main.addParamD st kClassicChannelNames kBoolType (Value.vbool true)
  let st := Main.addParamD st kProxyChannels kBoolType (Value.vbool false)
  let st := Main.addParamD st kWorldCtl kBoolType (Value.vbool false)
  let st := Main.addParamD st kImportSkin kBoolType (Value.vbool false)
  let st := Main.addParamD st kSkin kStringType (Value.vstr kEmpty)
  let st := Main.addParam st kLColorFk kLongType (Value.vint 6)
    (some (Value.vint 0)) (some (Value.vint 31)) false true true true none none
  let st := Main.addParam st kLColorIk kLongType (Value.vint 18)
    (some (Value.vint 0)) (some (Value.vint 31)) false true true true none none
  let st := Main.addParam st kRColorFk kLongType (Value.vint 23)
    (some (Value.vint 0)) (some (Value.vint 31)) false true true true none none
  let st := Main.addParam st kRColorIk kLongType (Value.vint 14)
    (some (Value.vint 0)) (some (Value.vint 31)) false true true true none none
  let st := Main.addParam st kCColorFk kLongType (Value.vint 13)
    (some (Value.vint 0)) (some (Value.vint 31)) false true true true none none
  let st := Main.addParam st kCColorIk kLongType (Value.vint 17)
    (some (Value.vint 0)) (some (Value.vint 31)) false true true true none none
  let st := Main.addParamD st kJointRig kBoolType (Value.vbool true)
  let st := Main.addParamD st kForceUniScale kBoolType (Value.vbool false)
  let st := Main.addParamD st kSynoptic kStringType (Value.vstr kEmpty)
  let st := Main.addParamD st kDoPreCustomStep kBoolType (Value.vbool false)
  let st := Main.addParamD st kDoPostCustomStep kBoolType (Value.vbool false)
  let st := Main.addParamD st kPreCustomStep kStringType (Value.vstr kEmpty)
  let st := Main.addParamD st kPostCustomStep kStringType (Value.vstr kEmpty)
  let st := Main.addParamD st kComments kStringType (Value.vstr kEmpty)
  let st := Main.addParamD st kUser kStringType (Value.vstr lib.user)
  let st := Main.addParamD st kDate kStringType (Value.vstr lib.date)
  let st := Main.addParamD st kMayaVersion kStringType (Value.vstr lib.mayaVersion)
  let st := Main.addParamD st kGearVersion kStringType (Value.vstr lib.gearVersion)
  st

/-- Rig.__init__ (guide.py lines 262-277): empty registry and graph
state followed by addParameters. -/
def init (lib : Lib) : RigState :=
  { toState := addParameters lib Main.init
    controllers := []
    components := []
    componentsIndex := []
    parents := []
    model := none }

end Rig

/-- One component entry of the persisted guide template document
(see the template format in the spec and guide.py lines 452-516). -/
structure CompDict where
  param_values : List (String × Value)
  parent_fullName : String
  parent_localName : String
  child_components : List String
  deriving DecidableEq

/-- The guide_root entry of the template document. -/
structure RootDict where
  tra : Value
  name : String
  param_values : List (String × Value)
  deriving DecidableEq

/-- The whole template document produced by get_guide_template_dict and
consumed by set_from_dict. -/
structure TemplateDict where
  guide_root : RootDict
  components_list : List String
  components_dict : List (String × CompDict)
  ctl_buffers : Option Value
  deriving DecidableEq

/-- The string content of an optional value, empty when absent or not a
string. -/
def strOf : Option Value → String
  | some (Value.vstr s) => s
  | _ => kEmpty

/-- The decimal rendering of an optional integer value, empty when
absent or not an integer. -/
def intStrOf : Option Value → String
  | some (Value.vint n) => toString n
  | _ => kEmpty

/-- Modelled from the spec: the full name of a component guide,
combining base name, side and index as name_sideindex
(glossary entry Full name; data model format name_sideindex). -/
def compFullNameOf (pv : List (String × Value)) : String :=
  strOf (alookup pv kCompName) ++ kUnderscore ++ strOf (alookup pv kCompSide)
    ++ intStrOf (alookup pv kCompIndex)

/-- Modelled from the spec: ComponentGuide.set_from_dict of the
per-component plugin guides (invoked by Rig.set_from_dict at guide.py
line 470 but defined outside this repository).  Per spec section 4.2 it
populates the parameters of the freshly instantiated guide from the
stored snapshot and records the stored child list; parent linkage is
wired afterwards by the graph itself, the scene root stays
unmaterialised. -/
def compSetFromDict (cg : CompGuide) (d : CompDict) : CompGuide :=
  { cg with
    paramValues := d.param_values
    child_components := d.child_components
    fullName := compFullNameOf d.param_values
    comp_type := strOf (alookup d.param_values kCompType)
    parentComponent := none
    parentLocalName := none
    root := none }

/-- Modelled from the spec: ComponentGuide.get_guide_template_dict of
the per-component plugin guides (invoked by Rig.get_guide_template_dict
at guide.py line 495).  It serialises the parameter snapshot, the
parent linkage (empty strings standing for null) and an initially empty
child list that the graph then fills in. -/
def compGetTemplateDict (cg : CompGuide) : CompDict :=
  { param_values := cg.paramValues
    parent_fullName := cg.parentComponent.getD kEmpty
    parent_localName := cg.parentLocalName.getD kEmpty
    child_components := [] }

/-- The string content of a value, none when it is not a string
(a non-string comp_type would make the dynamic module import of
getComponentGuide fail, modelled as a raise). -/
def asStr : Option Value → Option String
  | some (Value.vstr s) => some s
  | _ => none

namespace Rig

/-- Inner fold of Rig.set_from_dict (guide.py lines 461-477) over the
stored components_list: look up the component entry, instantiate a
fresh guide of its comp_type, populate it from the entry, register it,
and when the entry names a parent, look the parent up in the components
registered so far (KeyError, modelled none, when it is not there yet)
and wire parentComponent and parentLocalName. -/
def setFromDictGo (lib : Lib) (T : TemplateDict) :
    RigState → List String → Option RigState
  | rig, [] => some rig
  | rig, comp :: rest =>
    match alookup T.components_dict comp with
    | none => none
    | some cDict =>
      match asStr (alookup cDict.param_values kCompType) with
      | none => none
      | some compType =>
        let cg := compSetFromDict (lib.newComponentGuide compType) cDict
        let rig1 := { rig with components := aset rig.components comp cg }
        let pName := cDict.parent_fullName
        if pName = kEmpty then setFromDictGo lib T rig1 rest
        else
          match alookup rig1.components pName with
          | none => none
          | some _ =>
            setFromDictGo lib T
              (updateComp rig1 comp (setParentFields pName cDict.parent_localName))
              rest

/-- Rig.set_from_dict (guide.py lines 452-477): bulk-set the rig
options from the guide_root parameter snapshot, take over the stored
build order, then process every component entry in order. -/
def set_from_dict (lib : Lib) (rig : RigState) (T : TemplateDict) : Option RigState :=
  match Main.setParamDefValuesFromDict rig.toState T.guide_root.param_values with
  | none => none
  | some m =>
    setFromDictGo lib T
      { rig.withMain m with componentsIndex := T.components_list }
      T.components_list

/-- Inner fold of Rig.get_guide_template_dict (guide.py lines 489-499)
over componentsIndex: look up each registered guide, serialise it,
store the result under its full name, and when it has a parent append
this full name to the child list already serialised for the parent
(KeyError, modelled none, when the parent was not serialised
earlier). -/
def getTplGo (rig : RigState) :
    List String → List String → List (String × CompDict) →
    Option (List String × List (String × CompDict))
  | [], accList, accDict => some (accList, accDict)
  | comp :: rest, accList, accDict =>
    match alookup rig.components comp with
    | none => none
    | some cg =>
      let cName := cg.fullName
      let accList1 := accList ++ [cName]
      let cDict := compGetTemplateDict cg
      let accDict1 := aset accDict cName cDict
      if cDict.parent_fullName = kEmpty then getTplGo rig rest accList1 accDict1
      else
        match alookup accDict1 cDict.parent_fullName with
        | none => none
        | some pentry =>
          let accDict2 := aset accDict1 cDict.parent_fullName
            { pentry with child_components := pentry.child_components ++ [cName] }
          getTplGo rig rest accList1 accDict2

/-- Rig.get_guide_template_dict (guide.py lines 479-516): serialise
the guide root (its world transform, short name and option snapshot
come from scene queries, abstracted by the collaborators record),
serialise every component in build order while rebuilding child lists,
and attach the controls shape buffer payload. -/
def get_guide_template_dict (lib : Lib) (rig : RigState) : Option TemplateDict :=
  match Main.get_param_values rig.toState with
  | none => none
  | some pv =>
    match getTplGo rig rig.componentsIndex [] [] with
    | none => none
    | some (cl, cd) =>
      some
        { guide_root := { tra := lib.modelTra, name := lib.modelName, param_values := pv }
          components_list := cl
          components_dict := cd
          ctl_buffers := lib.ctlBuffers }

end Rig

/-- Split of a character list at every occurrence of a separator,
keeping empty pieces, exactly like Python str.split with a one-character
separator. -/
def splitOnChar (sep : Char) : List Char → List (List Char)
  | [] => [[]]
  | c :: cs =>
    if c = sep then [] :: splitOnChar sep cs
    else
      match splitOnChar sep cs with
      | [] => [[c]]
      | p :: ps => (c :: p) :: ps

/-- Python s.split(sep) for a one-character separator. -/
def splitStr (sep : Char) (s : String) : List String :=
  (splitOnChar sep s.data).map (fun cs => String.mk cs)

/-- Python sep.join(parts) for a one-character separator. -/
def joinStr (sep : Char) (parts : List String) : String :=
  String.mk (List.intercalate [sep] (parts.map String.data))

/-- The underscore character of the naming convention. -/
def underscoreChar : Char := '_'

/-- The pipe character of Maya long names. -/
def pipeChar : Char := '|'

/-- First two underscore tokens of a node name joined again: the
parent full name derived by the naming convention
(guide.py line 416). -/
def joinTake2 (s : String) : String :=
  joinStr underscoreChar ((splitStr underscoreChar s).take 2)

/-- Remaining underscore tokens of a node name joined again: the local
attachment name derived by the naming convention (guide.py line 417). -/
def joinDrop2 (s : String) : String :=
  joinStr underscoreChar ((splitStr underscoreChar s).drop 2)

/-- Last pipe token of a Maya name (`name().split("|")[-1]`). -/
def lastPipeToken (s : String) : String :=
  ((splitStr pipeChar s).getLast? ).getD s

mutual

/-- Preorder collection of the component guides discovered by
Rig.findComponentRecursive (guide.py lines 536-559): every visited node
carrying a comp_type attribute yields the guide that the plugin
instantiates and self-populates from that node; children (all of
transform type in this scene model) are visited recursively when
branch is set. -/
def discoverComps (lib : Lib) (branch : Bool) : STree → List CompGuide
  | .mk i n a cx ch =>
    (if (alookup a kCompType).isSome then [lib.compFromNode (.mk i n a cx ch)] else [])
      ++ (if branch then discoverCompsL lib ch else [])

/-- Helper of discoverComps over a child list (recursion always passes
branch = true, as in the Python recursion). -/
def discoverCompsL (lib : Lib) : List STree → List CompGuide
  | [] => []
  | c :: cs => discoverComps lib true c ++ discoverCompsL lib cs

end

/-- Registration step of findComponentRecursive (guide.py lines
548-555): latch the graph validity when the discovered guide reports
invalid, append its full name to the build order and register it. -/
def regComp (rig : RigState) (cg : CompGuide) : RigState :=
  { rig with
    valid := if cg.valid then rig.valid else false
    componentsIndex := rig.componentsIndex ++ [cg.fullName]
    components := aset rig.components cg.fullName cg }

/-- Rig.findComponentRecursive (guide.py lines 536-559): fold the
registration step over the preorder discovery list. -/
def findComponentRecursive (lib : Lib) (branch : Bool) (rig : RigState)
    (t : STree) : RigState :=
  (discoverComps lib branch t).foldl regComp rig

/-- The inner loop of the fallback parent search (guide.py lines
431-437): for one exposed attachment point (localName, element) of the
component compName, scan every registered component, read its scene
root parent (a missing registry entry or a null root raises, modelled
none), and when the element node is not None and equals that parent,
record compName as that component's parentComponent with the attachment
localName. -/
def fallbackInner (scene : STree) (compName localName : String)
    (element : Option Nat) : RigState → List String → Option RigState
  | rig, [] => some rig
  | rig, cname :: rest =>
    match alookup rig.components cname with
    | none => none
    | some cc =>
      match cc.root with
      | none => none
      | some r =>
        if element.isSome ∧ element = parentOf scene r then
          fallbackInner scene compName localName element
            (updateComp rig cname (setParentFields compName localName))
            rest
        else fallbackInner scene compName localName element rig rest

/-- The outer loop of the fallback parent search (guide.py lines
429-437) over the attachment points returned by getObjects3. -/
def fallbackOuter (scene : STree) (compName : String) :
    RigState → List (String × Option Nat) → Option RigState
  | rig, [] => some rig
  | rig, (localName, el) :: rest =>
    match fallbackInner scene compName localName el rig rig.componentsIndex with
    | none => none
    | some rig1 => fallbackOuter scene compName rig1 rest

/-- One iteration of the parent-resolution pass of Rig.setFromHierarchy
(guide.py lines 407-437) for the component called name: read the scene
parent of its root (a missing registry entry or a null root raises
outside the KeyError handler, modelled none); when that parent exists
and carries isGearGuide, derive the candidate parent full name and
local name from the naming convention and link on success; when the
candidate full name is not registered (KeyError) run the fallback scan
over the attachment points that this same component exposes. -/
def parentingStep (lib : Lib) (scene : STree) (rig : RigState) (name : String) :
    Option RigState :=
  match alookup rig.components name with
  | none => none
  | some cg =>
    match cg.root with
    | none => none
    | some r =>
      match parentOf scene r with
      | none => some rig
      | some pid =>
        match nodeById scene pid with
        | none => some rig
        | some pnode =>
          if (alookup pnode.rootAttrs kIsGearGuide).isSome then
            match alookup rig.components (joinTake2 pnode.rootName) with
            | some _ =>
              some (updateComp rig name
                (setParentFields (joinTake2 pnode.rootName) (joinDrop2 pnode.rootName)))
            | none =>
              match rig.model with
              | none => none
              | some mid => fallbackOuter scene name rig (lib.getObjects3 cg mid)
          else some rig

/-- Fold of parentingStep over a name list. -/
def parentingGo (lib : Lib) (scene : STree) :
    RigState → List String → Option RigState
  | rig, [] => some rig
  | rig, name :: rest =>
    match parentingStep lib scene rig name with
    | none => none
    | some rig1 => parentingGo lib scene rig1 rest

/-- The parent-resolution pass of Rig.setFromHierarchy (guide.py lines
406-437): one parentingStep per entry of componentsIndex, in order. -/
def parentingPass (lib : Lib) (scene : STree) (rig : RigState) :
    Option RigState :=
  parentingGo lib scene rig rig.componentsIndex

/-- The larger of two rationals, computably (Python max of two
numbers). -/
def rmax (a b : Rat) : Rat := if a ≤ b then b else a

/-- Rig.addOptionsValues (guide.py lines 518-534): the largest distance
from the origin to any recorded attachment-point position over all
components (starting from 1), scaled into the size option. -/
def addOptionsValues (lib : Lib) (rig : RigState) : RigState :=
  let maxd := rig.components.foldl
    (fun acc pr => pr.2.apos.foldl (fun a pos => rmax (lib.getDistance posZero pos) a) acc)
    1
  { rig with values := aset rig.values kSize (Value.vnum (rmax (maxd * (5 / 100)) (1 / 10))) }

/-- Controllers gathering of Rig.setFromHierarchy (guide.py lines
392-396): find the controllers_org node below the model and register
each of its children under its short name. -/
def gatherControllers (scene : STree) (rig : RigState) : RigState :=
  match findChildByName scene kControllersOrg with
  | none => rig
  | some corg =>
    { rig with
      controllers := corg.childrenOf.foldl
        (fun acc c => aset acc (lastPipeToken c.rootName) c.rootId) rig.controllers }

/-- The discovery phase of Rig.setFromHierarchy (guide.py lines
373-404): record the model reference, load the rig options off the
model node, gather the controllers and run the recursive component
discovery from the resolved root. -/
def discoveryPhase (lib : Lib) (scene root : STree) (branch : Bool)
    (rig : RigState) : Option RigState :=
  match Main.setParamDefValuesFromProperty lib scene.rootAttrs scene.rootCnx
      { rig with model := some scene.rootId }.toState with
  | none => none
  | some m =>
    some (findComponentRecursive lib branch
      (gatherControllers scene ({ rig with model := some scene.rootId }.withMain m))
      root)

/-- Rig.setFromHierarchy (guide.py lines 365-450) given the resolved
model tree and component root (the upward walk that resolves them from
an arbitrary selected node, lines 377-383, is scene navigation and is
performed by the caller): the discovery phase followed, only when the
graph is still valid, by the parent-resolution pass and
addOptionsValues. -/
def setFromHierarchy (lib : Lib) (scene root : STree) (branch : Bool)
    (rig : RigState) : Option RigState :=
  match discoveryPhase lib scene root branch rig with
  | none => none
  | some rig3 =>
    if rig3.valid then
      match parentingPass lib scene rig3 with
      | none => none
      | some rig4 => some (addOptionsValues lib rig4)
    else some rig3

/-- Loop state of Rig.draw_guide (guide.py lines 708-773): the parent
variable carried between iterations, the growing partial component
list, the collected comp_index values and the draw trace (each drawn
component with the parent node it was drawn under, recording the side
effect of comp_guide.draw). -/
structure DrawAcc where
  parent : Option Nat
  pcs : List String
  idx : List Value
  trace : List (String × Nat)
  deriving DecidableEq

/-- Parent node resolution for a component with a recorded parent
(guide.py lines 732-743): the attachment node name is produced by the
parent guide's getName and resolved against the scene by PyNode with a
findChild fallback, both abstracted into the resolveNode collaborator
(none models a node found nowhere, which PyMEL reports as a falsy
result after the fallback). -/
def resolveParentNode (lib : Lib) (model : Nat) (parentKey : String)
    (parentLocal : Option String) : Option Nat :=
  lib.resolveNode model (lib.getName parentKey (parentLocal.getD kEmpty))

/-- Parent produced by the parentComponent resolution at the top of
one draw_guide iteration (guide.py lines 732-743): components without
a recorded parent keep the parent carried over from the previous
iteration. -/
def stepP1 (lib : Lib) (model : Nat) (acc : DrawAcc) (cg : CompGuide) : Option Nat :=
  match cg.parentComponent with
  | some pk => resolveParentNode lib model pk cg.parentLocalName
  | none => acc.parent

/-- Parent after the fallback ladder of guide.py lines 745-748: a
still-unresolved parent falls back to initParent when given and to the
model root otherwise. -/
def stepP2 (initParent : Option Nat) (model : Nat) (p1 : Option Nat) : Option Nat :=
  if p1 = none ∧ initParent.isSome then initParent
  else if p1 = none then some model
  else p1

/-- Parent after the partial re-rooting ladder of guide.py lines
757-764: a component named in the original seed list is re-rooted at
initParent when given and at the model root otherwise. -/
def stepP3 (seedsOrig : List String) (name : String) (initParent : Option Nat)
    (model : Nat) (p2 : Option Nat) : Option Nat :=
  if name ∈ seedsOrig ∧ initParent.isSome then initParent
  else if name ∈ seedsOrig ∧ initParent.isNone then some model
  else if p2.isNone ∧ initParent.isSome then initParent
  else p2

/-- One iteration of the component loop of Rig.draw_guide (guide.py
lines 729-771) for the component called name.  seedsOrig is the
original partial argument, isPartial its truthiness, pcs the growing
partial_components clone.  A missing registry entry or a missing
comp_index value raises KeyError, modelled none. -/
def drawStep (lib : Lib) (components : List (String × CompGuide))
    (seedsOrig : List String) (isPartial : Bool) (initParent : Option Nat)
    (model : Nat) (acc : DrawAcc) (name : String) : Option DrawAcc :=
  match alookup components name with
  | none => none
  | some cg =>
    let p2 : Option Nat := stepP2 initParent model (stepP1 lib model acc cg)
    if isPartial ∧ name ∈ acc.pcs then
      let pcs1 := acc.pcs ++ cg.child_components
      let p3 : Option Nat := stepP3 seedsOrig name initParent model p2
      match p3, alookup cg.paramValues kCompIndex with
      | some pnode, some ci =>
        some { parent := p3, pcs := pcs1, idx := acc.idx ++ [ci],
               trace := acc.trace ++ [(name, pnode)] }
      | _, _ => none
    else if isPartial then some { acc with parent := p2 }
    else
      match p2 with
      | some pnode => some { acc with parent := p2, trace := acc.trace ++ [(name, pnode)] }
      | none => none

/-- Fold of drawStep over a name list. -/
def drawLoop (lib : Lib) (components : List (String × CompGuide))
    (seedsOrig : List String) (isPartial : Bool) (initParent : Option Nat)
    (model : Nat) : DrawAcc → List String → Option DrawAcc
  | acc, [] => some acc
  | acc, name :: rest =>
    match drawStep lib components seedsOrig isPartial initParent model acc name with
    | none => none
    | some acc1 => drawLoop lib components seedsOrig isPartial initParent model acc1 rest

/-- Result of Rig.draw_guide: the returned pair (partial component
list, partial index list) together with the draw trace and the model
node used (recording the scene side effects that the claims are
about). -/
structure DrawOut where
  pcsOut : Option (List String)
  idxOut : List Value
  trace : List (String × Nat)
  model : Nat
  deriving DecidableEq

/-- Model resolution at the head of Rig.draw_guide (guide.py lines
718-726): with an initParent whose top ancestor carries the ismodel
tag that ancestor becomes the model; with an initParent elsewhere the
function warns and returns early (none); without an initParent the
initial hierarchy is created and becomes the model. -/
def guideModelOf (lib : Lib) (initParent : Option Nat) : Option Nat :=
  match initParent with
  | some ip =>
    match lib.topAncestor ip with
    | some t => if lib.nodeHasAttr t kIsModel then some t else none
    | none => none
  | none => some lib.freshModelId

/-- Packaging of the loop result into the draw_guide return value
(guide.py line 773): the partial component list is returned only on a
partial build. -/
def drawFinish (isPartial : Bool) (model : Nat) : Option DrawAcc → Option DrawOut
  | none => none
  | some acc =>
    some { pcsOut := if isPartial then some acc.pcs else none,
           idxOut := acc.idx, trace := acc.trace, model := model }

/-- The component loop of Rig.draw_guide run against a resolved model
node (guide.py lines 728-773). -/
def drawWithModel (lib : Lib) (rig : RigState) (seedsOrig : List String)
    (isPartial : Bool) (initParent : Option Nat) : Option Nat → Option DrawOut
  | none => none
  | some model =>
    drawFinish isPartial model
      (drawLoop lib rig.components seedsOrig isPartial initParent model
        { parent := none, pcs := seedsOrig, idx := [], trace := [] }
        rig.componentsIndex)

/-- Rig.draw_guide (guide.py lines 679-773).  The partial argument is
the optional seed list (Python accepts a single name or a list; the
embedding takes the normalised list). -/
def draw_guide (lib : Lib) (rig : RigState) (seeds? : Option (List String))
    (initParent : Option Nat) : Option DrawOut :=
  drawWithModel lib rig (seeds?.getD []) (decide (seeds?.getD [] ≠ [])) initParent
    (guideModelOf lib initParent)

/-- Scene mutation operations performed by Rig.update and
Rig.drawUpdate (guide.py lines 649-677 and 775-795), in the order the
code issues them. -/
inductive Op where
  | rename (n : Nat) (s : String)
  | create (n : Nat) (p : Option Nat)
  | deleteNode (n : Nat)
  | reparent (n : Nat) (p : Nat)
  | drawComp (c : String) (p : Option Nat)
  deriving DecidableEq

/-- The tracked slice of scene state for the update claims: which node
ids are alive, the parent of each tracked node and the current name of
each tracked node.  comp_guide.draw creates fresh nodes under the new
hierarchy only, so it leaves this tracked slice unchanged. -/
structure SceneS where
  live : List Nat
  par : List (Nat × Nat)
  names : List (Nat × String)
  deriving DecidableEq

/-- Effect of one scene operation.  pm.delete removes a whole subtree;
for the tracked nodes only the direct removal matters here and the
entry in the parent map is dropped with it. -/
def applyOp (s : SceneS) (op : Op) : SceneS :=
  match op with
  | .rename n nm => { s with names := aset s.names n nm }
  | .create n p =>
    { s with
      live := s.live ++ [n]
      par := match p with | some q => aset s.par n q | none => s.par }
  | .deleteNode n =>
    { s with
      live := s.live.filter (fun m => m ≠ n)
      par := s.par.filter (fun pr => pr.1 ≠ n) }
  | .reparent n p => { s with par := aset s.par n p }
  | .drawComp _ _ => s

/-- Effect of an operation sequence. -/
def applyOps (s : SceneS) : List Op → SceneS
  | [] => s
  | op :: rest => applyOps (applyOp s op) rest

/-- Children of a node in the tracked scene slice. -/
def childrenOf (s : SceneS) (n : Nat) : List Nat :=
  (s.par.filter (fun pr => pr.2 = n)).map Prod.fst

/-- Scene operations of Rig.drawUpdate (guide.py lines 649-677) on the
success path with parent initially None: initialHierarchy creates the
fresh model root and its controllers_org; the fresh controllers_org is
deleted and the old one reparented under the new root; then every
component is drawn in componentsIndex order, each under the node that
the old parent name, rebased onto the new root, resolves to
(abstracted by drawParent). -/
def drawUpdateOps (rig : RigState) (newRoot newCtl oldCtl : Nat)
    (drawParent : String → Option Nat) : List Op :=
  [Op.create newRoot none, Op.create newCtl (some newRoot),
   Op.deleteNode newCtl, Op.reparent oldCtl newRoot]
    ++ rig.componentsIndex.map (fun n => Op.drawComp n (drawParent n))

/-- Scene operations of Rig.update (guide.py lines 790-795) once the
validity check has decided to rebuild: rename the old root aside, run
drawUpdate, rename the new root to the original name, delete the old
root. -/
def updateOps (rig : RigState) (oldRoot newRoot newCtl oldCtl : Nat)
    (name : String) (drawParent : String → Option Nat) : List Op :=
  [Op.rename oldRoot (name ++ kOldSuffix)]
    ++ drawUpdateOps rig newRoot newCtl oldCtl drawParent
    ++ [Op.rename newRoot name, Op.deleteNode oldRoot]

/-- Case split for a lookup in an updated association list. -/
theorem alookup_aset_cases {κ α : Type} [DecidableEq κ]
    (l : List (κ × α)) (k q : κ) (v w : α)
    (h : alookup (aset l k v) q = some w) :
    (q = k ∧ w = v) ∨ alookup l q = some w := by
  by_cases hq : q = k
  · subst hq
    rw [alookup_aset_self] at h
    exact Or.inl ⟨rfl, (Option.some_inj.mp h).symm⟩
  · rw [alookup_aset_ne l k q v (fun he => hq he.symm)] at h
    exact Or.inr h

/-- C8.  setParamDefValue error behaviour and mirror invariant: for
every registry state and script name, setParamDefValue returns False
and leaves the whole state (hence paramDefs and values) unchanged when
the script name is not registered; otherwise it returns True and
afterwards both the stored definition value and the mirrored values
entry equal the new value. -/
theorem claim_C8 (st : Main.State) (s : String) (v : Value) :
    (alookup st.paramDefs s = none → Main.setParamDefValue st s v = (false, st)) ∧
    (∀ pd, alookup st.paramDefs s = some pd →
      (Main.setParamDefValue st s v).1 = true ∧
      (alookup (Main.setParamDefValue st s v).2.paramDefs s).map ParamDef.value
        = some v ∧
      alookup (Main.setParamDefValue st s v).2.values s = some v) := by
  constructor
  · intro h
    simp [Main.setParamDefValue, h]
  · intro pd h
    unfold Main.setParamDefValue
    rw [h]
    refine ⟨rfl, ?_, ?_⟩
    · rw [alookup_aset_self]
      rfl
    · rw [alookup_aset_self]

/-- Registry state used to instantiate C8: a fresh registry with the
rig_name parameter declared. -/
def c8State : Main.State :=
  Main.addParamD Main.init kRigName kStringType (Value.vstr vRig)

/-- Witness for C8 at a concrete registry: an unknown name returns
False unchanged and the registered name is updated on both sides. -/
theorem claim_C8_witness :
    Main.setParamDefValue c8State kMode (Value.vint 1) = (false, c8State) ∧
    (Main.setParamDefValue c8State kRigName (Value.vint 1)).1 = true ∧
    (alookup (Main.setParamDefValue c8State kRigName (Value.vint 1)).2.paramDefs
        kRigName).map ParamDef.value = some (Value.vint 1) ∧
    alookup (Main.setParamDefValue c8State kRigName (Value.vint 1)).2.values
        kRigName = some (Value.vint 1) :=
  ⟨(claim_C8 c8State kMode (Value.vint 1)).1 (by decide),
   (claim_C8 c8State kRigName (Value.vint 1)).2
     { scriptName := kRigName, valueType := kStringType, value := Value.vstr vRig }
     (by decide)⟩

/-- C9.  addParam re-registration: with a script name that is already
registered, addParam does not fail; it overwrites the stored definition
and mirrored value and appends the name to paramNames a second time, so
paramNames gains a duplicate while its element set still matches the
paramDefs key set. -/
theorem claim_C9 (st : Main.State) (s ty : String) (v : Value)
    (mn mx : Option Value) (kb rd sb wr : Bool) (nn sn : Option String)
    (pd0 : ParamDef)
    (hreg : alookup st.paramDefs s = some pd0)
    (hinv : ∀ x, x ∈ st.paramNames ↔ (alookup st.paramDefs x).isSome) :
    alookup (Main.addParam st s ty v mn mx kb rd sb wr nn sn).paramDefs s =
      some { scriptName := s, valueType := ty, value := v, niceName := nn,
             shortName := sn, minimum := mn, maximum := mx, keyable := kb,
             readable := rd, storable := sb, writable := wr } ∧
    alookup (Main.addParam st s ty v mn mx kb rd sb wr nn sn).values s = some v ∧
    (Main.addParam st s ty v mn mx kb rd sb wr nn sn).paramNames
      = st.paramNames ++ [s] ∧
    (Main.addParam st s ty v mn mx kb rd sb wr nn sn).paramNames.count s
      = st.paramNames.count s + 1 ∧
    1 ≤ st.paramNames.count s ∧
    (∀ x, x ∈ (Main.addParam st s ty v mn mx kb rd sb wr nn sn).paramNames ↔
      (alookup (Main.addParam st s ty v mn mx kb rd sb wr nn sn).paramDefs x).isSome) := by
  have hmem : s ∈ st.paramNames := by
    rw [hinv s, hreg]
    rfl
  refine ⟨?_, ?_, rfl, ?_, ?_, ?_⟩
  · exact alookup_aset_self _ _ _
  · exact alookup_aset_self _ _ _
  · simp [Main.addParam, List.count_append]
  · exact Nat.one_le_iff_ne_zero.mpr (by
      intro hz
      exact (List.count_eq_zero.mp hz) hmem)
  · intro x
    by_cases hx : x = s
    · subst hx
      simp [Main.addParam, alookup_aset_self]
    · simp only [Main.addParam, List.mem_append, List.mem_singleton, hx, or_false]
      rw [alookup_aset_ne _ _ _ _ (fun he => hx he.symm)]
      exact hinv x

/-- Witness for C9: re-registering rig_name on a fresh registry with a
new default overwrites the definition and duplicates the name. -/
theorem claim_C9_witness :
    alookup (Main.addParam c8State kRigName kStringType (Value.vstr kEmpty)
        none none false true true true none none).paramDefs kRigName =
      some { scriptName := kRigName, valueType := kStringType,
             value := Value.vstr kEmpty } ∧
    alookup (Main.addParam c8State kRigName kStringType (Value.vstr kEmpty)
        none none false true true true none none).values kRigName
      = some (Value.vstr kEmpty) ∧
    (Main.addParam c8State kRigName kStringType (Value.vstr kEmpty)
        none none false true true true none none).paramNames
      = c8State.paramNames ++ [kRigName] ∧
    (Main.addParam c8State kRigName kStringType (Value.vstr kEmpty)
        none none false true true true none none).paramNames.count kRigName
      = c8State.paramNames.count kRigName + 1 ∧
    1 ≤ c8State.paramNames.count kRigName ∧
    (∀ x, x ∈ (Main.addParam c8State kRigName kStringType (Value.vstr kEmpty)
        none none false true true true none none).paramNames ↔
      (alookup (Main.addParam c8State kRigName kStringType (Value.vstr kEmpty)
        none none false true true true none none).paramDefs x).isSome) :=
  claim_C9 c8State kRigName kStringType (Value.vstr kEmpty)
    none none false true true true none none
    { scriptName := kRigName, valueType := kStringType, value := Value.vstr vRig }
    (by decide)
    (by
      intro x
      constructor
      · intro hx
        simp only [c8State, Main.addParamD, Main.addParam, Main.init] at hx ⊢
        simp at hx
        subst hx
        decide
      · intro hx
        simp only [c8State, Main.addParamD, Main.addParam, Main.init] at hx ⊢
        by_cases hr : kRigName = x
        · simp [hr.symm]
        · simp [alookup, hr] at hx)

/-- The option loader only ever lowers the validity latch. -/
theorem propGo_valid_mono (lib : Lib) (attrs : List (String × Value))
    (cnx : List (String × Nat)) :
    ∀ (l : List (String × ParamDef)) (st st' : Main.State),
      Main.propGo lib attrs cnx st l = some st' →
      st'.valid = true → st.valid = true := by
  intro l
  induction l with
  | nil =>
    intro st st' h hv
    simp [Main.propGo] at h
    rw [h]
    exact hv
  | cons p rest ih =>
    intro st st' h hv
    obtain ⟨s, pd⟩ := p
    unfold Main.propGo at h
    split at h
    · have hfalse := ih _ _ h hv
      simp at hfalse
    · split at h
      · split at h
        · have := ih _ _ h hv
          exact this
        · have := ih _ _ h hv
          exact this
      · split at h
        · exact absurd h (by simp)
        · have := ih _ _ h hv
          exact this

/-- Registering one discovered component only ever lowers the latch. -/
theorem regComp_valid_mono (rig : RigState) (cg : CompGuide)
    (h : (regComp rig cg).valid = true) : rig.valid = true := by
  unfold regComp at h
  by_cases hv : cg.valid
  · simpa [hv] using h
  · simp [hv] at h

/-- Folding the registration step only ever lowers the latch. -/
theorem foldl_regComp_valid_mono :
    ∀ (l : List CompGuide) (rig : RigState),
      (l.foldl regComp rig).valid = true → rig.valid = true := by
  intro l
  induction l with
  | nil => intro rig h; exact h
  | cons c cs ih =>
    intro rig h
    exact regComp_valid_mono rig c (ih (regComp rig c) h)

/-- Gathering controllers does not touch the latch. -/
theorem gatherControllers_valid (scene : STree) (rig : RigState) :
    (gatherControllers scene rig).valid = rig.valid := by
  unfold gatherControllers
  cases findChildByName scene kControllersOrg <;> rfl

/-- In-place component mutation does not touch the latch. -/
theorem updateComp_valid (rig : RigState) (k : String) (f : CompGuide → CompGuide) :
    (updateComp rig k f).valid = rig.valid := rfl

/-- The fallback inner scan does not touch the latch. -/
theorem fallbackInner_valid (scene : STree) (cn ln : String) (el : Option Nat) :
    ∀ (l : List String) (rig rig' : RigState),
      fallbackInner scene cn ln el rig l = some rig' → rig'.valid = rig.valid := by
  intro l
  induction l with
  | nil =>
    intro rig rig' h
    simp [fallbackInner] at h
    rw [h]
  | cons c cs ih =>
    intro rig rig' h
    unfold fallbackInner at h
    split at h
    · exact absurd h (by simp)
    · split at h
      · exact absurd h (by simp)
      · split at h
        · rw [ih _ _ h]
          exact updateComp_valid rig c _
        · exact ih _ _ h

/-- The fallback outer scan does not touch the latch. -/
theorem fallbackOuter_valid (scene : STree) (cn : String) :
    ∀ (l : List (String × Option Nat)) (rig rig' : RigState),
      fallbackOuter scene cn rig l = some rig' → rig'.valid = rig.valid := by
  intro l
  induction l with
  | nil =>
    intro rig rig' h
    simp [fallbackOuter] at h
    rw [h]
  | cons o os ih =>
    intro rig rig' h
    obtain ⟨ln, el⟩ := o
    unfold fallbackOuter at h
    split at h
    · exact absurd h (by simp)
    · rename_i rig1 hi
      rw [ih _ _ h]
      exact fallbackInner_valid scene cn ln el _ _ _ hi

/-- One parent-resolution step does not touch the latch. -/
theorem parentingStep_valid (lib : Lib) (scene : STree) (rig rig' : RigState)
    (name : String) (h : parentingStep lib scene rig name = some rig') :
    rig'.valid = rig.valid := by
  unfold parentingStep at h
  split at h
  · exact absurd h (by simp)
  · split at h
    · exact absurd h (by simp)
    · split at h
      · rw [Option.some_inj.mp h.symm]
      · split at h
        · rw [Option.some_inj.mp h.symm]
        · split at h
          · split at h
            · rw [Option.some_inj.mp h.symm]
              exact updateComp_valid rig name _
            · split at h
              · exact absurd h (by simp)
              · exact fallbackOuter_valid scene name _ _ _ h
          · rw [Option.some_inj.mp h.symm]

/-- The whole parent-resolution pass does not touch the latch. -/
theorem parentingGo_valid (lib : Lib) (scene : STree) :
    ∀ (l : List String) (rig rig' : RigState),
      parentingGo lib scene rig l = some rig' → rig'.valid = rig.valid := by
  intro l
  induction l with
  | nil =>
    intro rig rig' h
    simp [parentingGo] at h
    rw [h]
  | cons n ns ih =>
    intro rig rig' h
    unfold parentingGo at h
    split at h
    · exact absurd h (by simp)
    · rename_i rig1 hs
      rw [ih _ _ h]
      exact parentingStep_valid lib scene rig rig1 n hs

/-- addOptionsValues does not touch the latch. -/
theorem addOptionsValues_valid (lib : Lib) (rig : RigState) :
    (addOptionsValues lib rig).valid = rig.valid := rfl

/-- The discovery phase only ever lowers the latch. -/
theorem discoveryPhase_valid_mono (lib : Lib) (scene root : STree) (branch : Bool)
    (rig rigD : RigState) (h : discoveryPhase lib scene root branch rig = some rigD)
    (hv : rigD.valid = true) : rig.valid = true := by
  unfold discoveryPhase at h
  split at h
  · exact absurd h (by simp)
  · rename_i m hp
    rw [Option.some_inj.mp h.symm] at hv
    unfold findComponentRecursive at hv
    have h3 := foldl_regComp_valid_mono _ _ hv
    rw [gatherControllers_valid] at h3
    exact propGo_valid_mono lib scene.rootAttrs scene.rootCnx _ _ _ hp h3

/-- C7.  Validity latch monotonicity: across one whole reconciliation
pass of setFromHierarchy, including setParamDefValuesFromProperty and
findComponentRecursive, the valid flag can only go from true to false,
never back: if the pass completes with valid still true, it was already
true on entry, so once it has been lowered during the pass no later
step of the same pass raises it again (only a freshly constructed guide
state carries valid = true again). -/
theorem claim_C7 (lib : Lib) (scene root : STree) (branch : Bool)
    (rig rig' : RigState)
    (h : setFromHierarchy lib scene root branch rig = some rig')
    (hv : rig'.valid = true) : rig.valid = true := by
  unfold setFromHierarchy at h
  split at h
  · exact absurd h (by simp)
  · rename_i rig3 hd
    split at h
    · exact discoveryPhase_valid_mono lib scene root branch rig rig3 hd (by assumption)
    · rename_i h3
      rw [Option.some_inj.mp h.symm] at hv
      exact absurd hv h3

/-- Model root node name "guide". -/
def kGuideName : String := "guide"

/-- A component type tag used by concrete instantiations. -/
def tControl : String := "control"

/-- Node name "b_C0_root". -/
def nBC0Root : String := "b_C0_root"

/-- A blank component guide used by concrete instantiations. -/
def cgDefault : CompGuide :=
  { fullName := kEmpty, comp_type := kEmpty, root := none, parentComponent := none,
    parentLocalName := none, child_components := [], paramValues := [], apos := [],
    valid := true }

/-- A concrete collaborators record used to instantiate theorems: the
plugin guide populated from a node takes its full name from the first
two underscore tokens of the node name and records the node as its
root. -/
def libW : Lib :=
  { user := kEmpty, date := kEmpty, mayaVersion := kEmpty, gearVersion := kEmpty,
    modelTra := Value.vnull, modelName := vRig, ctlBuffers := none,
    newComponentGuide := fun _ => cgDefault,
    compFromNode := fun t =>
      { cgDefault with fullName := joinTake2 t.rootName, root := some t.rootId },
    getObjects3 := fun _ _ => [],
    getFCurveValues := fun _ => Value.vnull,
    getDistance := fun _ _ => 0,
    getName := fun a b => a ++ kUnderscore ++ b,
    resolveNode := fun _ _ => none,
    topAncestor := fun _ => none,
    nodeHasAttr := fun _ _ => false,
    freshModelId := 100 }

/-- A small registry with only the rig_name option declared. -/
def mainW : Main.State :=
  Main.addParamD Main.init kRigName kStringType (Value.vstr vRig)

/-- A fresh small rig state used to instantiate theorems. -/
def rigW : RigState :=
  { toState := mainW, controllers := [], components := [], componentsIndex := [],
    parents := [], model := none }

/-- A one-node model scene carrying the declared option. -/
def sceneW : STree :=
  .mk 0 kGuideName [(kRigName, Value.vstr vRig), (kIsModel, Value.vbool true)] [] []

/-- The state that the reconciliation pass produces on the concrete
witness scene. -/
def rigW7 : RigState := (setFromHierarchy libW sceneW sceneW true rigW).get rfl

/-- Witness for C7: on a concrete valid scene the pass completes with
the latch still raised, and the theorem recovers that it was raised on
entry. -/
theorem claim_C7_witness :
    setFromHierarchy libW sceneW sceneW true rigW = some rigW7 ∧
    rigW7.valid = true ∧ rigW.valid = true :=
  ⟨rfl, rfl, claim_C7 libW sceneW sceneW true rigW rigW7 rfl rfl⟩

/-- Any component looked up after folding the registration step came
either from the discovered list or from the initial registry. -/
theorem foldl_regComp_lookup :
    ∀ (l : List CompGuide) (rig : RigState) (n : String) (cg : CompGuide),
      alookup (l.foldl regComp rig).components n = some cg →
      cg ∈ l ∨ alookup rig.components n = some cg := by
  intro l
  induction l with
  | nil =>
    intro rig n cg h
    exact Or.inr h
  | cons c cs ih =>
    intro rig n cg h
    rcases ih (regComp rig c) n cg h with hm | hl
    · exact Or.inl (List.mem_cons_of_mem _ hm)
    · unfold regComp at hl
      rcases alookup_aset_cases _ _ _ _ _ hl with ⟨_, hcg⟩ | hold
      · exact Or.inl (hcg ▸ List.mem_cons_self c cs)
      · exact Or.inr hold

/-- Folding the registration step never touches the values
dictionary. -/
theorem foldl_regComp_values :
    ∀ (l : List CompGuide) (rig : RigState),
      (l.foldl regComp rig).values = rig.values := by
  intro l
  induction l with
  | nil => intro rig; rfl
  | cons c cs ih =>
    intro rig
    rw [List.foldl_cons, ih (regComp rig c)]
    rfl

/-- Gathering controllers touches neither components nor values. -/
theorem gatherControllers_components (scene : STree) (rig : RigState) :
    (gatherControllers scene rig).components = rig.components := by
  unfold gatherControllers
  cases findChildByName scene kControllersOrg <;> rfl

/-- Gathering controllers leaves the values dictionary alone. -/
theorem gatherControllers_values (scene : STree) (rig : RigState) :
    (gatherControllers scene rig).values = rig.values := by
  unfold gatherControllers
  cases findChildByName scene kControllersOrg <;> rfl

/-- A member of an association list in which a key is absent does not
carry that key. -/
theorem mem_key_ne_of_alookup_none {κ α : Type} [DecidableEq κ]
    (l : List (κ × α)) (q : κ) (h : alookup l q = none) :
    ∀ pr ∈ l, pr.1 ≠ q := by
  intro pr hm he
  have : q ∈ akeys l := by
    rw [← he]
    exact List.mem_map_of_mem Prod.fst hm
  rw [← alookup_isSome_iff_mem_akeys] at this
  rw [h] at this
  exact absurd this (by simp)

/-- The option loader leaves untouched any values entry whose key is
not among the processed parameter names. -/
theorem propGo_values_other (lib : Lib) (attrs : List (String × Value))
    (cnx : List (String × Nat)) (q : String) :
    ∀ (l : List (String × ParamDef)) (st st' : Main.State),
      (∀ pr ∈ l, pr.1 ≠ q) →
      Main.propGo lib attrs cnx st l = some st' →
      alookup st'.values q = alookup st.values q := by
  intro l
  induction l with
  | nil =>
    intro st st' _ h
    simp [Main.propGo] at h
    rw [h]
  | cons p rest ih =>
    intro st st' hne h
    obtain ⟨s, pd⟩ := p
    have hsq : s ≠ q := hne (s, pd) (List.mem_cons_self _ _)
    have hrest : ∀ pr ∈ rest, pr.1 ≠ q := fun pr hm => hne pr (List.mem_cons_of_mem _ hm)
    unfold Main.propGo at h
    split at h
    · have := ih _ _ hrest h
      exact this
    · split at h
      · split at h
        · rw [ih _ _ hrest h]
          exact alookup_aset_ne _ _ _ _ hsq
        · rw [ih _ _ hrest h]
          exact alookup_aset_ne _ _ _ _ hsq
      · split at h
        · exact absurd h (by simp)
        · rw [ih _ _ hrest h]
          exact alookup_aset_ne _ _ _ _ hsq

/-- C10.  Implicit frame effect: when the discovery phase of
setFromHierarchy has lowered the valid latch, the whole
parent-resolution pass and addOptionsValues are skipped: the pass
returns the discovery state itself, every discovered component still
has parentComponent and parentLocalName unassigned (given that the
plugin populate step leaves them unassigned, as the spec contract
states), and the size option is not computed. -/
theorem claim_C10 (lib : Lib) (scene root : STree) (branch : Bool)
    (rig rigD : RigState)
    (hdisc : discoveryPhase lib scene root branch rig = some rigD)
    (hfresh : rig.components = [])
    (hnosize : alookup rig.paramDefs kSize = none)
    (hpar : ∀ cg ∈ discoverComps lib branch root,
      cg.parentComponent = none ∧ cg.parentLocalName = none)
    (hinvalid : rigD.valid = false) :
    setFromHierarchy lib scene root branch rig = some rigD ∧
    (∀ n cg, alookup rigD.components n = some cg →
      cg.parentComponent = none ∧ cg.parentLocalName = none) ∧
    alookup rigD.values kSize = alookup rig.values kSize := by
  refine ⟨?_, ?_, ?_⟩
  · unfold setFromHierarchy
    rw [hdisc]
    simp [hinvalid]
  · intro n cg h
    unfold discoveryPhase at hdisc
    split at hdisc
    · exact absurd hdisc (by simp)
    · rw [← Option.some_inj.mp hdisc] at h
      unfold findComponentRecursive at h
      rcases foldl_regComp_lookup _ _ _ _ h with hm | hl
      · exact hpar cg hm
      · rw [gatherControllers_components] at hl
        have : alookup rig.components n = some cg := hl
        rw [hfresh] at this
        exact absurd this (by simp)
  · unfold discoveryPhase at hdisc
    split at hdisc
    · exact absurd hdisc (by simp)
    · rename_i m hp
      rw [← Option.some_inj.mp hdisc]
      unfold findComponentRecursive
      rw [foldl_regComp_values, gatherControllers_values]
      have hkeys : ∀ pr ∈ ({ rig with model := some scene.rootId } : RigState).toState.paramDefs,
          pr.1 ≠ kSize := mem_key_ne_of_alookup_none _ _ hnosize
      exact propGo_values_other lib scene.rootAttrs scene.rootCnx kSize _ _ _ hkeys hp

/-- The scene used to instantiate C10: the model node is missing the
declared rig_name option (so discovery latches valid to false) and
carries one discovered component below it. -/
def sceneC10 : STree :=
  .mk 0 kGuideName [] []
    [.mk 1 nBC0Root [(kCompType, Value.vstr tControl)] [] []]

/-- The discovery result on the C10 witness scene. -/
def rigD10 : RigState := (discoveryPhase libW sceneC10 sceneC10 true rigW).get rfl

/-- Witness for C10 on a concrete stale scene: the pass returns the
discovery state, the discovered component has no parent link and the
size option is untouched. -/
theorem claim_C10_witness :
    setFromHierarchy libW sceneC10 sceneC10 true rigW = some rigD10 ∧
    (∀ n cg, alookup rigD10.components n = some cg →
      cg.parentComponent = none ∧ cg.parentLocalName = none) ∧
    alookup rigD10.values kSize = alookup rigW.values kSize :=
  claim_C10 libW sceneC10 sceneC10 true rigW rigD10 rfl rfl (by decide)
    (by decide) rfl

/-- A node stays alive under any operation sequence that never deletes
it (renames, creations, reparentings and component draws do not remove
tracked nodes). -/
theorem mem_live_applyOps (x : Nat) :
    ∀ (l : List Op) (s : SceneS),
      x ∈ s.live → (∀ op ∈ l, op ≠ Op.deleteNode x) →
      x ∈ (applyOps s l).live := by
  intro l
  induction l with
  | nil => intro s hx _; exact hx
  | cons op rest ih =>
    intro s hx hop
    have hrest : ∀ o ∈ rest, o ≠ Op.deleteNode x :=
      fun o hm => hop o (List.mem_cons_of_mem _ hm)
    refine ih (applyOp s op) ?_ hrest
    cases op with
    | rename n nm => exact hx
    | create n p => exact List.mem_append_left _ hx
    | deleteNode n =>
      have hnx : n ≠ x := by
        intro he
        exact hop (Op.deleteNode n) (List.mem_cons_self _ _) (by rw [he])
      simp only [applyOp, List.mem_filter]
      exact ⟨hx, by simpa using fun he => hnx he.symm⟩
    | reparent n p => exact hx
    | drawComp c p => exact hx

/-- The update trace decomposes as a prefix followed by the single
final deletion of the old root. -/
theorem updateOps_eq_concat (rig : RigState) (oldRoot newRoot newCtl oldCtl : Nat)
    (name : String) (drawParent : String → Option Nat) :
    updateOps rig oldRoot newRoot newCtl oldCtl name drawParent =
      ([Op.rename oldRoot (name ++ kOldSuffix)]
        ++ drawUpdateOps rig newRoot newCtl oldCtl drawParent
        ++ [Op.rename newRoot name]) ++ [Op.deleteNode oldRoot] := by
  unfold updateOps
  simp

/-- No operation before the final deletion deletes the old root, as
long as the old root is distinct from the transient fresh
controllers_org node (the only other node the trace deletes). -/
theorem updateOps_prefix_no_delete (rig : RigState)
    (oldRoot newRoot newCtl oldCtl : Nat) (name : String)
    (drawParent : String → Option Nat) (hne : oldRoot ≠ newCtl) :
    ∀ op ∈ ([Op.rename oldRoot (name ++ kOldSuffix)]
        ++ drawUpdateOps rig newRoot newCtl oldCtl drawParent
        ++ [Op.rename newRoot name]),
      op ≠ Op.deleteNode oldRoot := by
  intro op hm hc
  rw [hc] at hm
  simp [drawUpdateOps] at hm
  exact hne hm

/-- C4 as amended.  Update keeps the old tree alive until the very
end: the first operation of the rebuild renames the old guide root
aside (it does not delete it), the deletion of the old root is the very
last operation, after the replacement hierarchy is completely drawn and
renamed to the original name; hence if any step raises after the
rename, the old root still exists in the scene, although its
controllers_org content may already have been transplanted into the
new hierarchy, so its node content is not necessarily unchanged. -/
theorem claim_C4_amended (rig : RigState) (oldRoot newRoot newCtl oldCtl : Nat)
    (name : String) (drawParent : String → Option Nat) (s0 : SceneS) (k : Nat)
    (hne : oldRoot ≠ newCtl)
    (hlive : oldRoot ∈ s0.live)
    (hk : k < (updateOps rig oldRoot newRoot newCtl oldCtl name drawParent).length) :
    (updateOps rig oldRoot newRoot newCtl oldCtl name drawParent).head? =
      some (Op.rename oldRoot (name ++ kOldSuffix)) ∧
    (updateOps rig oldRoot newRoot newCtl oldCtl name drawParent).getLast? =
      some (Op.deleteNode oldRoot) ∧
    oldRoot ∈ (applyOps s0
      ((updateOps rig oldRoot newRoot newCtl oldCtl name drawParent).take k)).live := by
  refine ⟨rfl, ?_, ?_⟩
  · rw [updateOps_eq_concat]
    exact List.getLast?_concat _
  · rw [updateOps_eq_concat] at hk ⊢
    rw [List.length_append, List.length_singleton] at hk
    have hkle : k ≤ ([Op.rename oldRoot (name ++ kOldSuffix)]
        ++ drawUpdateOps rig newRoot newCtl oldCtl drawParent
        ++ [Op.rename newRoot name]).length := Nat.le_of_lt_succ hk
    rw [List.take_append_of_le_length hkle]
    refine mem_live_applyOps oldRoot _ s0 hlive ?_
    intro op hm
    exact updateOps_prefix_no_delete rig oldRoot newRoot newCtl oldCtl name
      drawParent hne op (List.take_subset _ _ hm)

/-- Full name "b_C0". -/
def nBC0 : String := "b_C0"

/-- A rig whose build order holds the single component b_C0, used by
the update trace instantiations. -/
def rigC4 : RigState := { rigW with componentsIndex := [nBC0] }

/-- The tracked scene before the update: the old root (node 10) with
its controllers_org child (node 11). -/
def s0C4 : SceneS :=
  { live := [10, 11], par := [(11, 10)],
    names := [(10, kGuideName), (11, kControllersOrg)] }

/-- Rebased draw parent used by the update trace instantiations. -/
def dpC4 : String → Option Nat := fun _ => some 20

/-- Counterexample to C4 as stated.  Cutting the update trace after
five operations (the point where the first component draw would raise)
leaves the old root alive but with its content changed: its
controllers_org child has already been transplanted to the new root,
so the claim that the old root keeps its node content unchanged fails
at this input. -/
theorem claim_C4_counterexample :
    10 ∈ (applyOps s0C4
      ((updateOps rigC4 10 20 21 11 kGuideName dpC4).take 5)).live ∧
    childrenOf (applyOps s0C4
      ((updateOps rigC4 10 20 21 11 kGuideName dpC4).take 5)) 10
      ≠ childrenOf s0C4 10 := by
  decide

/-- Witness for the amended C4 at the same concrete input: the first
operation renames the old root aside, the final operation is the only
deletion of the old root, and the old root is still alive after the
five-operation prefix. -/
theorem claim_C4_amended_witness :
    (updateOps rigC4 10 20 21 11 kGuideName dpC4).head? =
      some (Op.rename 10 (kGuideName ++ kOldSuffix)) ∧
    (updateOps rigC4 10 20 21 11 kGuideName dpC4).getLast? =
      some (Op.deleteNode 10) ∧
    10 ∈ (applyOps s0C4 ((updateOps rigC4 10 20 21 11 kGuideName dpC4).take 5)).live :=
  claim_C4_amended rigC4 10 20 21 11 kGuideName dpC4 s0C4 5 (by decide)
    (by decide) (by decide)

/-- Lookup after an in-place update at the same key. -/
theorem alookup_aupdate_eq {κ α : Type} [DecidableEq κ]
    (l : List (κ × α)) (k : κ) (f : α → α) :
    alookup (aupdate l k f) k = (alookup l k).map f := by
  cases h : alookup l k with
  | none => simp [alookup_aupdate_none l k f h, h]
  | some v => simp [alookup_aupdate_self l k f v h, h]

/-- Lookup of the mutated component. -/
theorem updateComp_lookup_self (rig : RigState) (k : String) (f : CompGuide → CompGuide) :
    alookup (updateComp rig k f).components k = (alookup rig.components k).map f :=
  alookup_aupdate_eq rig.components k f

/-- Lookup of any other component after an in-place mutation. -/
theorem updateComp_lookup_ne (rig : RigState) (k : String) (f : CompGuide → CompGuide)
    (n : String) (h : k ≠ n) :
    alookup (updateComp rig k f).components n = alookup rig.components n :=
  alookup_aupdate_ne rig.components k n f h

/-- In-place component mutation keeps the build order. -/
theorem updateComp_index (rig : RigState) (k : String) (f : CompGuide → CompGuide) :
    (updateComp rig k f).componentsIndex = rig.componentsIndex := rfl

/-- Overwriting the parent fields twice keeps only the second
assignment. -/
theorem setParentFields_overwrite (pn ln pn' ln' : String) (c : CompGuide) :
    setParentFields pn' ln' (setParentFields pn ln c) = setParentFields pn' ln' c := rfl

/-- Assigning the parent fields does not move the scene root. -/
theorem setParentFields_root (pn ln : String) (c : CompGuide) :
    (setParentFields pn ln c).root = c.root := rfl

/-- The fallback inner scan keeps the build order. -/
theorem fallbackInner_index (scene : STree) (cn ln : String) (el : Option Nat) :
    ∀ (l : List String) (rig rig' : RigState),
      fallbackInner scene cn ln el rig l = some rig' →
      rig'.componentsIndex = rig.componentsIndex := by
  intro l
  induction l with
  | nil =>
    intro rig rig' h
    simp [fallbackInner] at h
    rw [h]
  | cons c cs ih =>
    intro rig rig' h
    unfold fallbackInner at h
    split at h
    · exact absurd h (by simp)
    · split at h
      · exact absurd h (by simp)
      · split at h
        · rw [ih _ _ h]
          rfl
        · exact ih _ _ h

/-- Where each component entry ends up after the fallback inner scan
over a duplicate-free name list: a scanned component whose scene parent
equals the offered attachment node gets the new parent fields, every
other entry is untouched. -/
theorem fallbackInner_lookupX (scene : STree) (cn ln : String) (el : Option Nat) :
    ∀ (l : List String) (rig rig' : RigState) (X : String) (cx : CompGuide) (xr : Nat),
      fallbackInner scene cn ln el rig l = some rig' →
      l.Nodup →
      alookup rig.components X = some cx →
      cx.root = some xr →
      alookup rig'.components X =
        some (if X ∈ l ∧ el.isSome ∧ el = parentOf scene xr
              then setParentFields cn ln cx else cx) := by
  intro l
  induction l with
  | nil =>
    intro rig rig' X cx xr h _ hcx _
    simp [fallbackInner] at h
    rw [h] at hcx
    simp [hcx]
  | cons c cs ih =>
    intro rig rig' X cx xr h hnd hcx hxr
    have hndc := List.nodup_cons.mp hnd
    unfold fallbackInner at h
    split at h
    · exact absurd h (by simp)
    · rename_i cc hcc
      split at h
      · exact absurd h (by simp)
      · rename_i rr hrr
        by_cases hXc : X = c
        · subst hXc
          have hcceq : cc = cx := by
            rw [hcx] at hcc
            exact (Option.some_inj.mp hcc).symm
          have hrrxr : rr = xr := by
            rw [hcceq, hxr] at hrr
            exact (Option.some_inj.mp hrr).symm
          have hXcs : ¬ X ∈ cs := hndc.1
          split at h
          · rename_i hcond
            have hlook : alookup (updateComp rig X (setParentFields cn ln)).components X
                = some (setParentFields cn ln cx) := by
              rw [updateComp_lookup_self, hcx]
              rfl
            have hres := ih _ _ X (setParentFields cn ln cx) xr h hndc.2 hlook
              (by rw [setParentFields_root, hxr])
            rw [hres]
            have hcond' : el.isSome ∧ el = parentOf scene xr := by
              rw [← hrrxr]
              exact hcond
            rw [if_neg (fun hc => hXcs hc.1),
              if_pos ⟨List.mem_cons_self _ _, hcond'⟩]
          · rename_i hcond
            have hres := ih _ _ X cx xr h hndc.2 hcx hxr
            rw [hres]
            have hcond' : ¬ (el.isSome ∧ el = parentOf scene xr) := by
              rw [← hrrxr]
              exact hcond
            rw [if_neg (fun hc => hXcs hc.1), if_neg (fun hc => hcond' hc.2)]
        · have hmemiff : (X ∈ c :: cs ∧ el.isSome ∧ el = parentOf scene xr) ↔
              (X ∈ cs ∧ el.isSome ∧ el = parentOf scene xr) := by
            constructor
            · rintro ⟨hm, hrest⟩
              rcases List.mem_cons.mp hm with he | hm2
              · exact absurd he hXc
              · exact ⟨hm2, hrest⟩
            · rintro ⟨hm, hrest⟩
              exact ⟨List.mem_cons_of_mem _ hm, hrest⟩
          split at h
          · have hcx1 : alookup (updateComp rig c (setParentFields cn ln)).components X
                = some cx := by
              rw [updateComp_lookup_ne _ _ _ _ (fun he => hXc he.symm), hcx]
            have hres := ih _ _ X cx xr h hndc.2 hcx1 hxr
            rw [hres]
            by_cases hcond : X ∈ cs ∧ el.isSome ∧ el = parentOf scene xr
            · rw [if_pos hcond, if_pos (hmemiff.mpr hcond)]
            · rw [if_neg hcond, if_neg (fun hc => hcond (hmemiff.mp hc))]
          · have hres := ih _ _ X cx xr h hndc.2 hcx hxr
            rw [hres]
            by_cases hcond : X ∈ cs ∧ el.isSome ∧ el = parentOf scene xr
            · rw [if_pos hcond, if_pos (hmemiff.mpr hcond)]
            · rw [if_neg hcond, if_neg (fun hc => hcond (hmemiff.mp hc))]


/-- Whether a registered component exists and has a scene root (the
precondition for the fallback scan not to raise). -/
def rootedAt (rig : RigState) (n : String) : Bool :=
  ((alookup rig.components n).bind CompGuide.root).isSome

/-- Unfolding of rootedAt into its witnesses. -/
theorem rootedAt_iff (rig : RigState) (n : String) :
    rootedAt rig n = true ↔
      ∃ c rt, alookup rig.components n = some c ∧ c.root = some rt := by
  unfold rootedAt
  cases hc : alookup rig.components n with
  | none => simp
  | some c =>
    cases hr : c.root with
    | none => simp [hr]
    | some rt => simp [hr]

/-- The fallback inner scan succeeds when every scanned component is
registered with a scene root. -/
theorem fallbackInner_total (scene : STree) (cn ln : String) (el : Option Nat) :
    ∀ (l : List String) (rig : RigState),
      (∀ n ∈ l, rootedAt rig n = true) →
      ∃ rig', fallbackInner scene cn ln el rig l = some rig' := by
  intro l
  induction l with
  | nil =>
    intro rig _
    exact ⟨rig, rfl⟩
  | cons c cs ih =>
    intro rig hall
    obtain ⟨cc, rr, hcc, hrr⟩ :=
      (rootedAt_iff rig c).mp (hall c (List.mem_cons_self _ _))
    have hrest0 : ∀ n ∈ cs, rootedAt rig n = true :=
      fun n hm => hall n (List.mem_cons_of_mem _ hm)
    unfold fallbackInner
    simp only [hcc]
    simp only [hrr]
    by_cases hcond : el.isSome ∧ el = parentOf scene rr
    · rw [if_pos hcond]
      refine ih (updateComp rig c (setParentFields cn ln)) ?_
      intro n hm
      rcases (rootedAt_iff rig n).mp (hrest0 n hm) with ⟨c2, rt2, hc2, hr2⟩
      refine (rootedAt_iff _ n).mpr ?_
      by_cases hnc : c = n
      · subst hnc
        refine ⟨setParentFields cn ln c2, rt2, ?_, ?_⟩
        · rw [updateComp_lookup_self, hc2]
          rfl
        · rw [setParentFields_root, hr2]
      · exact ⟨c2, rt2, by rw [updateComp_lookup_ne _ _ _ _ hnc, hc2], hr2⟩
    · rw [if_neg hcond]
      exact ih rig hrest0

/-- The fallback inner scan preserves registration and roots. -/
theorem fallbackInner_rooted (scene : STree) (cn ln : String) (el : Option Nat)
    (l : List String) (rig rig' : RigState)
    (h : fallbackInner scene cn ln el rig l = some rig')
    (hnd : l.Nodup) (n : String) (hr : rootedAt rig n = true) :
    rootedAt rig' n = true := by
  rcases (rootedAt_iff rig n).mp hr with ⟨c, rt, hc, hrt⟩
  have := fallbackInner_lookupX scene cn ln el l rig rig' n c rt h hnd hc hrt
  refine (rootedAt_iff rig' n).mpr ?_
  by_cases hcond : n ∈ l ∧ el.isSome ∧ el = parentOf scene rt
  · rw [if_pos hcond] at this
    exact ⟨setParentFields cn ln c, rt, this, by rw [setParentFields_root, hrt]⟩
  · rw [if_neg hcond] at this
    exact ⟨c, rt, this, hrt⟩

/-- The last attachment point in a getObjects3 listing whose node is
not None and equals the given target node (the fallback inner scan
assigns in listing order, so the last match is the one that
remains). -/
def lastMatch (target : Option Nat) : List (String × Option Nat) → Option (String × Option Nat)
  | [] => none
  | o :: rest =>
    match lastMatch target rest with
    | some m => some m
    | none => if o.2.isSome ∧ o.2 = target then some o else none

/-- The component entry that results from the last matching attachment
point: linked at that local name when a match exists, untouched
otherwise. -/
def applyLast (cn : String) (cx : CompGuide) : Option (String × Option Nat) → CompGuide
  | some lm => setParentFields cn lm.1 cx
  | none => cx

/-- The fallback outer scan keeps the build order. -/
theorem fallbackOuter_index (scene : STree) (cn : String) :
    ∀ (objs : List (String × Option Nat)) (rig rig' : RigState),
      fallbackOuter scene cn rig objs = some rig' →
      rig'.componentsIndex = rig.componentsIndex := by
  intro objs
  induction objs with
  | nil =>
    intro rig rig' h
    simp [fallbackOuter] at h
    rw [h]
  | cons o os ih =>
    intro rig rig' h
    obtain ⟨ln, el⟩ := o
    unfold fallbackOuter at h
    split at h
    · exact absurd h (by simp)
    · rename_i rig1 hi
      rw [ih _ _ h]
      exact fallbackInner_index scene cn ln el _ _ _ hi

/-- Where a component entry ends up after the whole fallback outer
scan: if any offered attachment point matches its scene parent, it is
linked to the scanning component at the last matching local name;
otherwise it is untouched. -/
theorem fallbackOuter_spec (scene : STree) (cn : String) :
    ∀ (objs : List (String × Option Nat)) (rig rig' : RigState)
      (X : String) (cx : CompGuide) (xr : Nat),
      fallbackOuter scene cn rig objs = some rig' →
      rig.componentsIndex.Nodup →
      (∀ n ∈ rig.componentsIndex, rootedAt rig n = true) →
      alookup rig.components X = some cx →
      cx.root = some xr →
      X ∈ rig.componentsIndex →
      alookup rig'.components X =
        some (applyLast cn cx (lastMatch (parentOf scene xr) objs)) := by
  intro objs
  induction objs with
  | nil =>
    intro rig rig' X cx xr h _ _ hcx _ _
    simp [fallbackOuter] at h
    rw [h] at hcx
    rw [hcx]
    rfl
  | cons o os ih =>
    intro rig rig' X cx xr h hnd hall hcx hxr hX
    obtain ⟨ln, el⟩ := o
    unfold fallbackOuter at h
    split at h
    · exact absurd h (by simp)
    · rename_i rig1 hi
      have hX1 := fallbackInner_lookupX scene cn ln el rig.componentsIndex rig rig1
        X cx xr hi hnd hcx hxr
      have hidx1 : rig1.componentsIndex = rig.componentsIndex :=
        fallbackInner_index scene cn ln el _ _ _ hi
      have hnd1 : rig1.componentsIndex.Nodup := by rw [hidx1]; exact hnd
      have hall1 : ∀ n ∈ rig1.componentsIndex, rootedAt rig1 n = true := by
        intro n hm
        rw [hidx1] at hm
        exact fallbackInner_rooted scene cn ln el _ _ _ hi hnd n (hall n hm)
      have hX1mem : X ∈ rig1.componentsIndex := by rw [hidx1]; exact hX
      by_cases hcond : el.isSome ∧ el = parentOf scene xr
      · have hXif : alookup rig1.components X = some (setParentFields cn ln cx) := by
          rw [hX1, if_pos ⟨hX, hcond⟩]
        have hres := ih rig1 rig' X (setParentFields cn ln cx) xr h hnd1 hall1 hXif
          (by rw [setParentFields_root, hxr]) hX1mem
        rw [hres]
        cases hlm : lastMatch (parentOf scene xr) os with
        | some m =>
          have h2 : lastMatch (parentOf scene xr) ((ln, el) :: os) = some m := by
            unfold lastMatch
            rw [hlm]
          rw [h2]
          simp [applyLast, setParentFields_overwrite]
        | none =>
          have h2 : lastMatch (parentOf scene xr) ((ln, el) :: os) = some (ln, el) := by
            unfold lastMatch
            rw [hlm]
            simp only [if_pos hcond]
          rw [h2]
          simp [applyLast]
      · have hXif : alookup rig1.components X = some cx := by
          rw [hX1, if_neg (fun hc => hcond hc.2)]
        have hres := ih rig1 rig' X cx xr h hnd1 hall1 hXif hxr hX1mem
        rw [hres]
        cases hlm : lastMatch (parentOf scene xr) os with
        | some m =>
          have h2 : lastMatch (parentOf scene xr) ((ln, el) :: os) = some m := by
            unfold lastMatch
            rw [hlm]
          rw [h2]
        | none =>
          have h2 : lastMatch (parentOf scene xr) ((ln, el) :: os) = none := by
            unfold lastMatch
            rw [hlm]
            simp only [if_neg hcond]
          rw [h2]

/-- The fallback outer scan succeeds when every registered component
has a scene root. -/
theorem fallbackOuter_total (scene : STree) (cn : String) :
    ∀ (objs : List (String × Option Nat)) (rig : RigState),
      rig.componentsIndex.Nodup →
      (∀ n ∈ rig.componentsIndex, rootedAt rig n = true) →
      ∃ rig', fallbackOuter scene cn rig objs = some rig' := by
  intro objs
  induction objs with
  | nil =>
    intro rig _ _
    exact ⟨rig, rfl⟩
  | cons o os ih =>
    intro rig hnd hall
    obtain ⟨ln, el⟩ := o
    obtain ⟨rig1, hi⟩ := fallbackInner_total scene cn ln el rig.componentsIndex rig hall
    have hidx1 : rig1.componentsIndex = rig.componentsIndex :=
      fallbackInner_index scene cn ln el _ _ _ hi
    obtain ⟨rig', ho⟩ := ih rig1 (by rw [hidx1]; exact hnd)
      (by
        intro n hm
        rw [hidx1] at hm
        exact fallbackInner_rooted scene cn ln el _ _ _ hi hnd n (hall n hm))
    refine ⟨rig', ?_⟩
    unfold fallbackOuter
    rw [hi]
    exact ho

/-- C3 as amended.  Fallback parent resolution: in the second pass of
setFromHierarchy, when the fast naming-convention lookup of the parent
of a component fails (the derived parent full name is not registered),
the engine takes that unresolved component itself, scans every
attachment point that it exposes through getObjects3, compares each
exposed node against the scene-graph parent node of every discovered
component, and records the unresolved component as the parentComponent
of each component whose scene parent matches an exposed node, with the
last matching attachment point as that component's parentLocalName;
components with no matching attachment point are left untouched (in
particular the unresolved component itself gains no parent this
way). -/
theorem claim_C3_amended (lib : Lib) (scene : STree) (rig : RigState)
    (name : String) (cg : CompGuide) (r pid : Nat) (pnode : STree) (mid : Nat)
    (X : String) (cx : CompGuide) (xr : Nat)
    (hnodup : rig.componentsIndex.Nodup)
    (hall : ∀ n ∈ rig.componentsIndex, rootedAt rig n = true)
    (hname : alookup rig.components name = some cg)
    (hroot : cg.root = some r)
    (hparent : parentOf scene r = some pid)
    (hpnode : nodeById scene pid = some pnode)
    (hgear : (alookup pnode.rootAttrs kIsGearGuide).isSome)
    (hfail : alookup rig.components (joinTake2 pnode.rootName) = none)
    (hmodel : rig.model = some mid)
    (hX : X ∈ rig.componentsIndex)
    (hcx : alookup rig.components X = some cx)
    (hxr : cx.root = some xr) :
    ∃ rig', parentingStep lib scene rig name = some rig' ∧
      alookup rig'.components X =
        some (applyLast name cx
          (lastMatch (parentOf scene xr) (lib.getObjects3 cg mid))) := by
  have hstep : parentingStep lib scene rig name =
      fallbackOuter scene name rig (lib.getObjects3 cg mid) := by
    unfold parentingStep
    simp only [hname, hroot, hparent, hpnode, hgear, if_true, hfail, hmodel]
  obtain ⟨rig', hout⟩ :=
    fallbackOuter_total scene name (lib.getObjects3 cg mid) rig hnodup hall
  refine ⟨rig', by rw [hstep]; exact hout, ?_⟩
  exact fallbackOuter_spec scene name (lib.getObjects3 cg mid) rig rig'
    X cx xr hout hnodup hall hcx hxr hX

/-- Full name "c_C0". -/
def nCC0 : String := "c_C0"

/-- Full name "d_C0". -/
def nDC0 : String := "d_C0"

/-- Attachment local name "pt". -/
def kPt : String := "pt"

/-- A scene node name whose two leading tokens name no component. -/
def nXxYyZ : String := "xx_yy_zz"

/-- Node name "c_C0_root". -/
def nCC0Root : String := "c_C0_root"

/-- Node name "c_C0_pt". -/
def nCC0Pt : String := "c_C0_pt"

/-- Node name "d_C0_root". -/
def nDC0Root : String := "d_C0_root"

/-- The guide of component c_C0 rooted at scene node 3. -/
def cgC3c : CompGuide := { cgDefault with fullName := nCC0, root := some 3 }

/-- The guide of component d_C0 rooted at scene node 4. -/
def cgC3d : CompGuide := { cgDefault with fullName := nDC0, root := some 4 }

/-- Scene subtree of d_C0. -/
def treeC3d : STree := .mk 4 nDC0Root [(kCompType, Value.vstr tControl)] [] []

/-- Attachment locator of c_C0 holding d_C0 below it. -/
def treeC3pt : STree := .mk 7 nCC0Pt [] [] [treeC3d]

/-- Scene subtree of c_C0. -/
def treeC3c : STree := .mk 3 nCC0Root [(kCompType, Value.vstr tControl)] [] [treeC3pt]

/-- A gear-tagged intermediate node whose name does not resolve to any
registered component, so the fast path fails below it. -/
def treeC3x : STree := .mk 9 nXxYyZ [(kIsGearGuide, Value.vbool true)] [] [treeC3c]

/-- The whole model scene for the fallback instantiations. -/
def sceneC3a : STree := .mk 0 kGuideName [(kIsModel, Value.vbool true)] [] [treeC3x]

/-- The rig state discovered from that scene. -/
def rigC3a : RigState :=
  { rigW with
    components := [(nCC0, cgC3c), (nDC0, cgC3d)]
    componentsIndex := [nCC0, nDC0]
    model := some 0 }

/-- Collaborators in which c_C0 exposes one attachment point, the
locator node 7. -/
def libC3a : Lib :=
  { libW with
    getObjects3 := fun c _ => if c.fullName = nCC0 then [(kPt, some 7)] else [] }

/-- Witness for the amended C3: on the concrete scene the fast path
for c_C0 fails, c_C0 scans its own attachment point (node 7), and
d_C0, whose scene parent is node 7, is recorded as a child of c_C0 at
local name pt. -/
theorem claim_C3_amended_witness :
    ∃ rig', parentingStep libC3a sceneC3a rigC3a nCC0 = some rig' ∧
      alookup rig'.components nDC0 =
        some (applyLast nCC0 cgC3d
          (lastMatch (parentOf sceneC3a 4) (libC3a.getObjects3 cgC3c 0))) :=
  claim_C3_amended libC3a sceneC3a rigC3a nCC0 cgC3c 3 9 treeC3x 0 nDC0 cgC3d 4
    (by decide) (by intro n hn; fin_cases hn <;> rfl) rfl rfl rfl rfl
    rfl rfl rfl (by decide) rfl rfl

/-- Node name "loc_A_extra", a gear-tagged locator whose two leading
tokens name no registered component. -/
def nLocAExtra : String := "loc_A_extra"

/-- Full name "x_C0". -/
def nXC0 : String := "x_C0"

/-- Node name "x_C0_root". -/
def nXC0Root : String := "x_C0_root"

/-- Attachment local name "u". -/
def kU : String := "u"

/-- The guide of component b_C0 rooted at scene node 1. -/
def cgC3b : CompGuide := { cgDefault with fullName := nBC0, root := some 1 }

/-- The guide of component x_C0 rooted at scene node 2. -/
def cgC3x : CompGuide := { cgDefault with fullName := nXC0, root := some 2 }

/-- The counterexample scene: b_C0 sits directly under the model while
x_C0 sits under the gear-tagged locator node 5, which is an attachment
point that b_C0 exposes but whose name resolves to no component. -/
def sceneC3 : STree :=
  .mk 0 kGuideName [(kIsModel, Value.vbool true)] []
    [.mk 1 nBC0Root [(kCompType, Value.vstr tControl)] [] [],
     .mk 5 nLocAExtra [(kIsGearGuide, Value.vbool true)] []
       [.mk 2 nXC0Root [(kCompType, Value.vstr tControl)] [] []]]

/-- The rig state discovered from the counterexample scene. -/
def rigC3 : RigState :=
  { rigW with
    components := [(nBC0, cgC3b), (nXC0, cgC3x)]
    componentsIndex := [nBC0, nXC0]
    model := some 0 }

/-- Collaborators in which the already-discovered component b_C0
exposes attachment point u at node 5 (the scene parent of x_C0), and
x_C0 exposes nothing. -/
def libC3 : Lib :=
  { libW with
    getObjects3 := fun c _ => if c.fullName = nBC0 then [(kU, some 5)] else [] }

/-- Counterexample to C3 as stated.  At this concrete input the fast
naming-convention lookup of the parent of x_C0 fails (its scene parent
is the gear-tagged node 5, whose derived name loc_A resolves to no
component), and the already-discovered component b_C0 exposes an
attachment point whose scene node is exactly that parent node 5 — so
the claim predicts that b_C0 is recorded as the parentComponent of
x_C0 with local name u.  The pass instead scans the attachment points
of x_C0 itself, finds nothing, and leaves x_C0 with no parent link at
all. -/
theorem claim_C3_counterexample :
    alookup rigC3.components (joinTake2 nLocAExtra) = none ∧
    parentOf sceneC3 2 = some 5 ∧
    (kU, some 5) ∈ libC3.getObjects3 cgC3b 0 ∧
    (parentingPass libC3 sceneC3 rigC3).map
        (fun r => (alookup r.components nXC0).map
          (fun c => (c.parentComponent, c.parentLocalName)))
      = some (some (none, none)) :=
  ⟨rfl, rfl, by decide, rfl⟩

/-- Setting a fresh key appends the entry. -/
theorem aset_not_mem_append {κ α : Type} [DecidableEq κ]
    (l : List (κ × α)) (q : κ) (v : α) (h : ¬ q ∈ akeys l) :
    aset l q v = l ++ [(q, v)] := by
  induction l with
  | nil => simp [aset]
  | cons p rest ih =>
    obtain ⟨k, w⟩ := p
    rw [akeys_cons] at h
    have h1 : ¬ k = q := fun hkq => h (hkq ▸ List.mem_cons_self k _)
    have h2 : ¬ q ∈ akeys rest := fun hm => h (List.mem_cons_of_mem _ hm)
    simp [aset, h1, ih h2]

/-- Updating the last, freshly appended entry. -/
theorem aupdate_append_last {κ α : Type} [DecidableEq κ]
    (l : List (κ × α)) (q : κ) (v : α) (f : α → α) (h : ¬ q ∈ akeys l) :
    aupdate (l ++ [(q, v)]) q f = l ++ [(q, f v)] := by
  induction l with
  | nil => simp [aupdate]
  | cons p rest ih =>
    obtain ⟨k, w⟩ := p
    rw [akeys_cons] at h
    have h1 : ¬ k = q := fun hkq => h (hkq ▸ List.mem_cons_self k _)
    have h2 : ¬ q ∈ akeys rest := fun hm => h (List.mem_cons_of_mem _ hm)
    simp [aupdate, h1, ih h2]

/-- Lookup in a concatenation, hit in the left part. -/
theorem alookup_append_of_some {κ α : Type} [DecidableEq κ]
    (l1 l2 : List (κ × α)) (q : κ) (v : α) (h : alookup l1 q = some v) :
    alookup (l1 ++ l2) q = some v := by
  induction l1 with
  | nil => simp [alookup] at h
  | cons p rest ih =>
    obtain ⟨k, w⟩ := p
    by_cases hk : k = q
    · subst hk
      simp [alookup] at h ⊢
      exact h
    · simp [alookup, hk] at h ⊢
      exact ih h

/-- Lookup in a concatenation whose left part misses the key. -/
theorem alookup_append_of_not_mem {κ α : Type} [DecidableEq κ]
    (l1 l2 : List (κ × α)) (q : κ) (h : ¬ q ∈ akeys l1) :
    alookup (l1 ++ l2) q = alookup l2 q := by
  induction l1 with
  | nil => simp
  | cons p rest ih =>
    obtain ⟨k, w⟩ := p
    rw [akeys_cons] at h
    have h1 : ¬ k = q := fun hkq => h (hkq ▸ List.mem_cons_self k _)
    have h2 : ¬ q ∈ akeys rest := fun hm => h (List.mem_cons_of_mem _ hm)
    simp [alookup, h1, ih h2]

/-- Lookup in the tabulation of a function over a key list. -/
theorem alookup_map_self {κ α : Type} [DecidableEq κ]
    (f : κ → α) (q : κ) :
    ∀ l : List κ, alookup (l.map fun c => (c, f c)) q =
      if q ∈ l then some (f q) else none := by
  intro l
  induction l with
  | nil => simp
  | cons c cs ih =>
    by_cases hc : c = q
    · subst hc
      simp [alookup]
    · simp only [List.map_cons, alookup_cons, hc, if_false, ih, List.mem_cons]
      by_cases hm : q ∈ cs
      · simp [hm]
      · have hqc : ¬ q = c := fun he => hc he.symm
        simp [hm, hqc]

/-- One well-formedness check of a template component entry against the
names listed before it: the entry exists, carries a string comp_type,
reproduces its own key as full name, and either has no parent linkage
at all or names a strictly earlier component. -/
def wfEntry (T : TemplateDict) (earlier : List String) (comp : String) : Bool :=
  match alookup T.components_dict comp with
  | none => false
  | some cd =>
    (match alookup cd.param_values kCompType with
     | some (Value.vstr _) => true
     | _ => false)
    && decide (compFullNameOf cd.param_values = comp)
    && (if cd.parent_fullName = kEmpty then decide (cd.parent_localName = kEmpty)
        else decide (cd.parent_fullName ∈ earlier))

/-- Well-formedness of a tail of the components list given the names
already listed. -/
def wfGo (T : TemplateDict) : List String → List String → Bool
  | _, [] => true
  | earlier, c :: rest => wfEntry T earlier c && wfGo T (earlier ++ [c]) rest

/-- Well-formedness of a whole template: a duplicate-free components
list whose every entry checks out against the names before it. -/
def wfTemplate (T : TemplateDict) : Bool :=
  decide T.components_list.Nodup && wfGo T [] T.components_list

/-- The component entry stored for a name (junk when absent). -/
def entryOf (T : TemplateDict) (comp : String) : CompDict :=
  (alookup T.components_dict comp).getD ⟨[], kEmpty, kEmpty, []⟩

/-- The component guide that set_from_dict builds for one entry: a
fresh guide of the stored type populated from the entry, with parent
linkage wired when the entry names one. -/
def mkCompFromEntry (lib : Lib) (cd : CompDict) : CompGuide :=
  if cd.parent_fullName = kEmpty then
    compSetFromDict (lib.newComponentGuide (strOf (alookup cd.param_values kCompType))) cd
  else
    setParentFields cd.parent_fullName cd.parent_localName
      (compSetFromDict (lib.newComponentGuide (strOf (alookup cd.param_values kCompType))) cd)

/-- Unfolding of one successful entry check. -/
theorem wfEntry_spec (T : TemplateDict) (earlier : List String) (comp : String)
    (h : wfEntry T earlier comp = true) :
    ∃ cd, alookup T.components_dict comp = some cd ∧ entryOf T comp = cd ∧
      (∃ s, alookup cd.param_values kCompType = some (Value.vstr s)) ∧
      compFullNameOf cd.param_values = comp ∧
      ((cd.parent_fullName = kEmpty ∧ cd.parent_localName = kEmpty) ∨
       (cd.parent_fullName ≠ kEmpty ∧ cd.parent_fullName ∈ earlier)) := by
  unfold wfEntry at h
  split at h
  · exact absurd h (by simp)
  · rename_i cd hcd
    rw [Bool.and_eq_true, Bool.and_eq_true] at h
    obtain ⟨⟨hty, hfn⟩, hpar⟩ := h
    refine ⟨cd, hcd, by rw [entryOf, hcd]; rfl, ?_, of_decide_eq_true hfn, ?_⟩
    · split at hty
      · rename_i s hs
        exact ⟨s, hs⟩
      · exact absurd hty (by simp)
    · by_cases hp : cd.parent_fullName = kEmpty
      · rw [if_pos hp] at hpar
        exact Or.inl ⟨hp, of_decide_eq_true hpar⟩
      · rw [if_neg hp] at hpar
        exact Or.inr ⟨hp, of_decide_eq_true hpar⟩

/-- Splitting one step of the list check. -/
theorem wfGo_cons (T : TemplateDict) (earlier : List String) (c : String)
    (rest : List String) :
    wfGo T earlier (c :: rest) = true ↔
      wfEntry T earlier c = true ∧ wfGo T (earlier ++ [c]) rest = true := by
  simp [wfGo, Bool.and_eq_true]


/-- The registration part of one set_from_dict step: the freshly
populated guide stored under its key. -/
def regFromDict (lib : Lib) (rig : RigState) (comp s : String) (cd : CompDict) : RigState :=
  { rig with
    components := aset rig.components comp
      (compSetFromDict (lib.newComponentGuide s) cd) }

/-- Master characterization of the set_from_dict component fold on a
fresh suffix: under well-formedness it succeeds and registers, in
order, exactly the guide that mkCompFromEntry describes for every
entry, leaving the registry options and the build order alone. -/
theorem setFromDictGo_spec (lib : Lib) (T : TemplateDict) :
    ∀ (rest earlier : List String) (rig : RigState),
      (earlier ++ rest).Nodup →
      wfGo T earlier rest = true →
      akeys rig.components = earlier →
      ∃ rig', Rig.setFromDictGo lib T rig rest = some rig' ∧
        rig'.components = rig.components
          ++ rest.map (fun c => (c, mkCompFromEntry lib (entryOf T c))) ∧
        rig'.componentsIndex = rig.componentsIndex ∧
        rig'.toState = rig.toState := by
  intro rest
  induction rest with
  | nil =>
    intro earlier rig _ _ _
    exact ⟨rig, rfl, by simp, rfl, rfl⟩
  | cons comp rest' ih =>
    intro earlier rig hnd hwf hkeys
    obtain ⟨hwf1, hwf2⟩ := (wfGo_cons T earlier comp rest').mp hwf
    obtain ⟨cd, hcd, hentry, ⟨s, hs⟩, hfn, hpar⟩ := wfEntry_spec T earlier comp hwf1
    have hstr : strOf (alookup cd.param_values kCompType) = s := by
      rw [hs]
      rfl
    have hndassoc : ((earlier ++ [comp]) ++ rest').Nodup := by
      rw [List.append_assoc, List.singleton_append]
      exact hnd
    have hcompnotmem : ¬ comp ∈ earlier := fun hm =>
      (List.disjoint_of_nodup_append hnd) hm (List.mem_cons_self _ _)
    have hset : (regFromDict lib rig comp s cd).components
        = rig.components ++ [(comp, compSetFromDict (lib.newComponentGuide s) cd)] := by
      unfold regFromDict
      exact aset_not_mem_append _ _ _ (by rw [hkeys]; exact hcompnotmem)
    have hkeys1 : akeys (regFromDict lib rig comp s cd).components = earlier ++ [comp] := by
      rw [hset]
      unfold akeys
      rw [List.map_append, ← hkeys]
      rfl
    unfold Rig.setFromDictGo
    simp only [hcd, hs, asStr]
    by_cases hp : cd.parent_fullName = kEmpty
    · rw [if_pos hp]
      obtain ⟨rig', hgo, hcomps, hidx, hst⟩ :=
        ih (earlier ++ [comp]) (regFromDict lib rig comp s cd) hndassoc hwf2 hkeys1
      refine ⟨rig', hgo, ?_, hidx, hst⟩
      rw [hcomps, hset, List.map_cons, List.append_assoc, List.singleton_append,
        hentry]
      unfold mkCompFromEntry
      rw [if_pos hp, hstr]
    · rw [if_neg hp]
      rcases hpar with ⟨hpe, _⟩ | ⟨_, hpmem⟩
      · exact absurd hpe hp
      · have hpsome : ∃ pv, alookup rig.components cd.parent_fullName = some pv := by
          rw [← Option.isSome_iff_exists, alookup_isSome_iff_mem_akeys, hkeys]
          exact hpmem
        obtain ⟨pv, hpv⟩ := hpsome
        have hpv1 : alookup (regFromDict lib rig comp s cd).components
            cd.parent_fullName = some pv := by
          rw [hset]
          exact alookup_append_of_some _ _ _ _ hpv
        simp only [show aset rig.components comp
            (compSetFromDict (lib.newComponentGuide s) cd)
            = (regFromDict lib rig comp s cd).components from rfl]
        simp only [hpv1]
        have hupd : (updateComp (regFromDict lib rig comp s cd)
            comp (setParentFields cd.parent_fullName cd.parent_localName)).components
            = rig.components ++ [(comp,
                setParentFields cd.parent_fullName cd.parent_localName
                  (compSetFromDict (lib.newComponentGuide s) cd))] := by
          unfold updateComp
          simp only [hset]
          exact aupdate_append_last _ _ _ _ (by rw [hkeys]; exact hcompnotmem)
        have hkeys2 : akeys (updateComp (regFromDict lib rig comp s cd)
            comp (setParentFields cd.parent_fullName cd.parent_localName)).components
            = earlier ++ [comp] := by
          rw [hupd]
          unfold akeys
          rw [List.map_append, ← hkeys]
          rfl
        obtain ⟨rig', hgo, hcomps, hidx, hst⟩ :=
          ih (earlier ++ [comp])
            (updateComp (regFromDict lib rig comp s cd)
              comp (setParentFields cd.parent_fullName cd.parent_localName))
            hndassoc hwf2 hkeys2
        refine ⟨rig', hgo, ?_, hidx, hst⟩
        rw [hcomps, hupd, List.map_cons, List.append_assoc, List.singleton_append,
          hentry]
        unfold mkCompFromEntry
        rw [if_neg hp, hstr]

/-- The bulk option set from trusted template data succeeds on covered
keys and leaves the registry shape (names, definition keys, latch)
alone. -/
theorem setFromDictGoM_spec (d : List (String × Value)) :
    ∀ (l : List (String × ParamDef)) (st : Main.State),
      (∀ pr ∈ l, pr.1 ∈ akeys st.paramDefs) →
      (∀ pr ∈ l, (alookup d pr.1).isSome) →
      ∃ st', Main.setFromDictGoM d st l = some st' ∧
        st'.paramNames = st.paramNames ∧
        akeys st'.paramDefs = akeys st.paramDefs ∧
        st'.valid = st.valid := by
  intro l
  induction l with
  | nil =>
    intro st _ _
    exact ⟨st, rfl, rfl, rfl, rfl⟩
  | cons p rest ih =>
    intro st hk hc
    obtain ⟨s, pd⟩ := p
    obtain ⟨v, hv⟩ := Option.isSome_iff_exists.mp (hc (s, pd) (List.mem_cons_self _ _))
    have hks : s ∈ akeys st.paramDefs := hk (s, pd) (List.mem_cons_self _ _)
    obtain ⟨st', hgo, hn, hkk, hval⟩ := ih
      { st with
        paramDefs := aset st.paramDefs s { pd with value := v }
        values := aset st.values s v }
      (by
        intro pr hm
        have : akeys (aset st.paramDefs s { pd with value := v }) = akeys st.paramDefs :=
          akeys_aset_mem _ _ _ hks
        rw [show ({ st with
            paramDefs := aset st.paramDefs s { pd with value := v }
            values := aset st.values s v } : Main.State).paramDefs
          = aset st.paramDefs s { pd with value := v } from rfl, this]
        exact hk pr (List.mem_cons_of_mem _ hm))
      (fun pr hm => hc pr (List.mem_cons_of_mem _ hm))
    refine ⟨st', ?_, hn, ?_, hval⟩
    · unfold Main.setFromDictGoM
      rw [hv]
      exact hgo
    · rw [hkk]
      exact akeys_aset_mem _ _ _ hks

/-- Full characterization of Rig.set_from_dict on a fresh graph and a
well-formed template: it succeeds, takes over the stored build order,
registers exactly the mkCompFromEntry guide of every entry and leaves
the option registry shape alone. -/
theorem set_from_dict_spec (lib : Lib) (rig : RigState) (T : TemplateDict)
    (hwf : wfTemplate T = true)
    (hfresh : rig.components = [])
    (hcov : ∀ pr ∈ rig.paramDefs, (alookup T.guide_root.param_values pr.1).isSome) :
    ∃ rig', Rig.set_from_dict lib rig T = some rig' ∧
      rig'.components
        = T.components_list.map (fun c => (c, mkCompFromEntry lib (entryOf T c))) ∧
      rig'.componentsIndex = T.components_list ∧
      rig'.paramNames = rig.paramNames ∧
      akeys rig'.paramDefs = akeys rig.paramDefs := by
  rw [wfTemplate, Bool.and_eq_true] at hwf
  obtain ⟨hnd, hwfgo⟩ := hwf
  have hnd' : T.components_list.Nodup := of_decide_eq_true hnd
  obtain ⟨m, hm, hmn, hmk, _⟩ := setFromDictGoM_spec T.guide_root.param_values
    rig.toState.paramDefs rig.toState
    (fun pr hm => List.mem_map_of_mem Prod.fst hm)
    hcov
  obtain ⟨rig', hgo, hcomps, hidx, hst⟩ := setFromDictGo_spec lib T
    T.components_list []
    { rig.withMain m with componentsIndex := T.components_list }
    (by simpa using hnd')
    hwfgo
    (by
      rw [show ({ rig.withMain m with componentsIndex := T.components_list }
        : RigState).components = rig.components from rfl, hfresh]
      rfl)
  refine ⟨rig', ?_, ?_, ?_, ?_, ?_⟩
  · unfold Rig.set_from_dict Main.setParamDefValuesFromDict
    rw [hm]
    exact hgo
  · rw [hcomps]
    rw [show ({ rig.withMain m with componentsIndex := T.components_list }
      : RigState).components = rig.components from rfl, hfresh]
    rfl
  · rw [hidx]
  · rw [show rig'.paramNames = rig'.toState.paramNames from rfl, hst]
    rw [show ({ rig.withMain m with componentsIndex := T.components_list }
      : RigState).toState = m from rfl]
    exact hmn
  · rw [show rig'.paramDefs = rig'.toState.paramDefs from rfl, hst]
    rw [show ({ rig.withMain m with componentsIndex := T.components_list }
      : RigState).toState = m from rfl]
    exact hmk

/-- The recorded structural parent of a registered component, as a key
into the components map. -/
def rigParentOf (rig : RigState) (n : String) : Option String :=
  (alookup rig.components n).bind CompGuide.parentComponent

/-- The chain of parentComponent links followed upward from a
component, cut off by the given fuel. -/
def parentChain (rig : RigState) : Nat → String → List String
  | 0, _ => []
  | k + 1, n =>
    match rigParentOf rig n with
    | none => []
    | some p => p :: parentChain rig k p

/-- The parent link that set_from_dict wires for one entry. -/
theorem mkCompFromEntry_parent (lib : Lib) (cd : CompDict) :
    (mkCompFromEntry lib cd).parentComponent =
      if cd.parent_fullName = kEmpty then none else some cd.parent_fullName := by
  by_cases hp : cd.parent_fullName = kEmpty <;>
    simp [mkCompFromEntry, hp, compSetFromDict, setParentFields]

/-- A member of a well-formed tail sits at a position whose entry
checks out against everything before it. -/
theorem wfGo_mem (T : TemplateDict) :
    ∀ (rest earlier : List String), wfGo T earlier rest = true →
      ∀ n ∈ rest, ∃ l1 l2, rest = l1 ++ n :: l2 ∧
        wfEntry T (earlier ++ l1) n = true := by
  intro rest
  induction rest with
  | nil =>
    intro earlier _ n hn
    simp at hn
  | cons c cs ih =>
    intro earlier hwf n hn
    obtain ⟨hwf1, hwf2⟩ := (wfGo_cons T earlier c cs).mp hwf
    rcases List.mem_cons.mp hn with rfl | hn2
    · exact ⟨[], cs, rfl, by simpa using hwf1⟩
    · obtain ⟨l1, l2, hsplit, hentry⟩ := ih (earlier ++ [c]) hwf2 n hn2
      refine ⟨c :: l1, l2, by rw [hsplit, List.cons_append], ?_⟩
      rw [List.append_assoc, List.singleton_append] at hentry
      exact hentry

/-- Position comparison on a split list: a member of the prefix sits
strictly before the splitting element when the latter is absent from
the prefix. -/
theorem indexOf_append_lt {α : Type} [DecidableEq α] :
    ∀ (l1 : List α) (l2 : List α) (p n : α), p ∈ l1 → ¬ n ∈ l1 →
      List.indexOf p (l1 ++ n :: l2) < List.indexOf n (l1 ++ n :: l2) := by
  intro l1
  induction l1 with
  | nil =>
    intro l2 p n hp _
    simp at hp
  | cons a t ih =>
    intro l2 p n hp hn
    have hna : ¬ n = a := fun he => hn (he ▸ List.mem_cons_self a t)
    by_cases hpa : p = a
    · subst hpa
      have hbpn : (p == n) = false := beq_eq_false_iff_ne.mpr (fun he => hna he.symm)
      simp [List.indexOf_cons, hbpn]
    · have hpt : p ∈ t := by
        rcases List.mem_cons.mp hp with he | ht
        · exact absurd he hpa
        · exact ht
      have hnt : ¬ n ∈ t := fun hm => hn (List.mem_cons_of_mem _ hm)
      have hlt := ih l2 p n hpt hnt
      have hbap : (a == p) = false := beq_eq_false_iff_ne.mpr (fun he => hpa he.symm)
      have hban : (a == n) = false := beq_eq_false_iff_ne.mpr (fun he => hna he.symm)
      simp only [List.cons_append, List.indexOf_cons, hbap, hban, cond_false]
      exact Nat.succ_lt_succ hlt

/-- Following a strictly position-decreasing parent map terminates: the
chain stays below the starting position, never repeats, and its last
element has no parent. -/
theorem parentChain_props (rig : RigState) (L : List String)
    (hstep : ∀ n p, rigParentOf rig n = some p →
      p ∈ L ∧ List.indexOf p L < List.indexOf n L) :
    ∀ (k : Nat) (n : String), List.indexOf n L < k →
      (parentChain rig k n).Nodup ∧
      (∀ q ∈ parentChain rig k n, List.indexOf q L < List.indexOf n L) ∧
      rigParentOf rig ((parentChain rig k n).getLastD n) = none := by
  intro k
  induction k with
  | zero =>
    intro n hn
    exact absurd hn (Nat.not_lt_zero _)
  | succ k ih =>
    intro n hn
    cases hpar : rigParentOf rig n with
    | none =>
      refine ⟨?_, ?_, ?_⟩ <;> simp [parentChain, hpar]
    | some p =>
      obtain ⟨hpL, hplt⟩ := hstep n p hpar
      have hpk : List.indexOf p L < k := lt_of_lt_of_le hplt (Nat.lt_succ_iff.mp hn)
      obtain ⟨hnd, hbound, hlast⟩ := ih p hpk
      have hchain : parentChain rig (k + 1) n = p :: parentChain rig k p := by
        simp [parentChain, hpar]
      rw [hchain]
      refine ⟨?_, ?_, ?_⟩
      · rw [List.nodup_cons]
        refine ⟨?_, hnd⟩
        intro hmem
        exact absurd (hbound p hmem) (lt_irrefl _)
      · intro q hq
        rcases List.mem_cons.mp hq with rfl | hq2
        · exact hplt
        · exact lt_trans (hbound q hq2) hplt
      · rw [List.getLastD_cons]
        exact hlast

/-- C6.  Forest invariant: on every guide graph populated by
set_from_dict from a well-formed template, every non-null
parentComponent wired by set_from_dict names a component strictly
earlier in componentsIndex, and following parentComponent links from
any component stays strictly position-decreasing, never revisits a
component, and ends at a component whose parentComponent is null. -/
theorem claim_C6 (lib : Lib) (rig : RigState) (T : TemplateDict)
    (hwf : wfTemplate T = true)
    (hfresh : rig.components = [])
    (hcov : ∀ pr ∈ rig.paramDefs, (alookup T.guide_root.param_values pr.1).isSome) :
    ∃ rig', Rig.set_from_dict lib rig T = some rig' ∧
      (∀ n p, rigParentOf rig' n = some p →
        p ∈ rig'.componentsIndex ∧
        List.indexOf p rig'.componentsIndex < List.indexOf n rig'.componentsIndex) ∧
      (∀ n ∈ rig'.componentsIndex,
        (parentChain rig' rig'.componentsIndex.length n).Nodup ∧
        ¬ n ∈ parentChain rig' rig'.componentsIndex.length n ∧
        rigParentOf rig'
          ((parentChain rig' rig'.componentsIndex.length n).getLastD n) = none) := by
  obtain ⟨rig', hset, hcomps, hidx, _, _⟩ := set_from_dict_spec lib rig T hwf hfresh hcov
  have hwf' := hwf
  rw [wfTemplate, Bool.and_eq_true] at hwf'
  obtain ⟨hndb, hwfgo⟩ := hwf'
  have hnd : T.components_list.Nodup := of_decide_eq_true hndb
  have hstep0 : ∀ n p, rigParentOf rig' n = some p →
      p ∈ T.components_list ∧
      List.indexOf p T.components_list < List.indexOf n T.components_list := by
    intro n p hpar
    unfold rigParentOf at hpar
    rw [hcomps, alookup_map_self] at hpar
    by_cases hmem : n ∈ T.components_list
    · rw [if_pos hmem] at hpar
      simp only [Option.some_bind] at hpar
      rw [mkCompFromEntry_parent] at hpar
      by_cases hpe : (entryOf T n).parent_fullName = kEmpty
      · rw [if_pos hpe] at hpar
        exact absurd hpar (by simp)
      · rw [if_neg hpe] at hpar
        have hpeq : p = (entryOf T n).parent_fullName := (Option.some_inj.mp hpar).symm
        obtain ⟨l1, l2, hsplit, hentry⟩ := wfGo_mem T T.components_list [] hwfgo n hmem
        rw [List.nil_append] at hentry
        obtain ⟨cd, _, hentryOf, _, _, hdisj⟩ := wfEntry_spec T l1 n hentry
        rw [hentryOf] at hpe hpeq
        rcases hdisj with ⟨he, _⟩ | ⟨_, hpl1⟩
        · exact absurd he hpe
        · rw [← hpeq] at hpl1
          have hnd2 : (l1 ++ n :: l2).Nodup := hsplit ▸ hnd
          have hnl1 : ¬ n ∈ l1 := fun hm =>
            (List.disjoint_of_nodup_append hnd2) hm (List.mem_cons_self _ _)
          constructor
          · rw [hsplit]
            exact List.mem_append_left _ hpl1
          · rw [hsplit]
            exact indexOf_append_lt l1 l2 p n hpl1 hnl1
    · rw [if_neg hmem] at hpar
      exact absurd hpar (by simp)
  have hstep : ∀ n p, rigParentOf rig' n = some p →
      p ∈ rig'.componentsIndex ∧
      List.indexOf p rig'.componentsIndex < List.indexOf n rig'.componentsIndex := by
    rw [hidx]
    exact hstep0
  refine ⟨rig', hset, hstep, ?_⟩
  intro n hmem
  have hlen : List.indexOf n rig'.componentsIndex < rig'.componentsIndex.length :=
    List.indexOf_lt_length.mpr hmem
  obtain ⟨hndc, hbound, hlast⟩ :=
    parentChain_props rig' rig'.componentsIndex hstep rig'.componentsIndex.length n hlen
  refine ⟨hndc, ?_, hlast⟩
  intro hmemc
  exact absurd (hbound n hmemc) (lt_irrefl _)

/-- Base name "b". -/
def sB : String := "b"

/-- Base name "x". -/
def sX : String := "x"

/-- Side tag "C". -/
def sC : String := "C"

/-- Template entry of component b_C0: no parent. -/
def cdB : CompDict :=
  { param_values := [(kCompType, Value.vstr tControl), (kCompName, Value.vstr sB),
      (kCompSide, Value.vstr sC), (kCompIndex, Value.vint 0)]
    parent_fullName := kEmpty
    parent_localName := kEmpty
    child_components := [] }

/-- Template entry of component x_C0: child of b_C0 at local name u. -/
def cdX : CompDict :=
  { param_values := [(kCompType, Value.vstr tControl), (kCompName, Value.vstr sX),
      (kCompSide, Value.vstr sC), (kCompIndex, Value.vint 0)]
    parent_fullName := nBC0
    parent_localName := kU
    child_components := [] }

/-- Guide-root option snapshot covering the witness registry. -/
def rootPvW : List (String × Value) := [(kRigName, Value.vstr vRig)]

/-- A small concrete well-formed template: b_C0 parentless, x_C0 under
b_C0. -/
def TW : TemplateDict :=
  { guide_root := { tra := Value.vnull, name := kGuideName, param_values := rootPvW }
    components_list := [nBC0, nXC0]
    components_dict := [(nBC0, cdB), (nXC0, cdX)]
    ctl_buffers := none }

/-- Witness for C6 on the concrete template. -/
theorem claim_C6_witness :
    ∃ rig', Rig.set_from_dict libW rigW TW = some rig' ∧
      (∀ n p, rigParentOf rig' n = some p →
        p ∈ rig'.componentsIndex ∧
        List.indexOf p rig'.componentsIndex < List.indexOf n rig'.componentsIndex) ∧
      (∀ n ∈ rig'.componentsIndex,
        (parentChain rig' rig'.componentsIndex.length n).Nodup ∧
        ¬ n ∈ parentChain rig' rig'.componentsIndex.length n ∧
        rigParentOf rig'
          ((parentChain rig' rig'.componentsIndex.length n).getLastD n) = none) :=
  claim_C6 libW rigW TW (by decide) rfl (by decide)

/-- The serialisation core of a template entry: same parameters and
parent linkage, empty child list (children are rebuilt by the
graph). -/
def tplOf (cd : CompDict) : CompDict :=
  { param_values := cd.param_values
    parent_fullName := cd.parent_fullName
    parent_localName := cd.parent_localName
    child_components := [] }

/-- The guide built from an entry keeps the full name encoded in the
entry parameters. -/
theorem mkCompFromEntry_fullName (lib : Lib) (cd : CompDict) :
    (mkCompFromEntry lib cd).fullName = compFullNameOf cd.param_values := by
  by_cases hp : cd.parent_fullName = kEmpty <;>
    simp [mkCompFromEntry, hp, compSetFromDict, setParentFields]

/-- Serialising the guide built from an entry gives back the entry
core (using that an entry without parent also stores no local
name). -/
theorem compGet_mkComp (lib : Lib) (cd : CompDict)
    (hloc : cd.parent_fullName = kEmpty → cd.parent_localName = kEmpty) :
    compGetTemplateDict (mkCompFromEntry lib cd) = tplOf cd := by
  by_cases hp : cd.parent_fullName = kEmpty
  · have hl := hloc hp
    simp [mkCompFromEntry, hp, compSetFromDict, compGetTemplateDict, tplOf, hl]
  · simp [mkCompFromEntry, hp, compSetFromDict, setParentFields, compGetTemplateDict,
      tplOf]

/-- The declaration-order projection succeeds when every declared name
is registered. -/
theorem getParamValuesGo_total (st : Main.State) :
    ∀ (names : List String) (acc : List (String × Value)),
      (∀ pn ∈ names, pn ∈ akeys st.paramDefs) →
      ∃ out, Main.getParamValuesGo st acc names = some out := by
  intro names
  induction names with
  | nil =>
    intro acc _
    exact ⟨acc, rfl⟩
  | cons pn rest ih =>
    intro acc hk
    have hpn : pn ∈ akeys st.paramDefs := hk pn (List.mem_cons_self _ _)
    obtain ⟨pd, hpd⟩ := Option.isSome_iff_exists.mp
      ((alookup_isSome_iff_mem_akeys _ _).mpr hpn)
    obtain ⟨out, hout⟩ := ih (aset acc pn (paramAsDictValue pd))
      (fun q hm => hk q (List.mem_cons_of_mem _ hm))
    refine ⟨out, ?_⟩
    unfold Main.getParamValuesGo
    rw [hpd]
    exact hout

/-- Master characterization of the template serialisation fold: under
well-formedness of the remaining names against the processed ones it
succeeds, extends the components list by exactly the processed names,
and stores for every name its entry core with some rebuilt child
list. -/
theorem getTplGo_spec (lib : Lib) (T : TemplateDict) (rig' : RigState) :
    ∀ (rest processed : List String) (accDict : List (String × CompDict)),
      (processed ++ rest).Nodup →
      wfGo T processed rest = true →
      (∀ c ∈ rest, alookup rig'.components c = some (mkCompFromEntry lib (entryOf T c))) →
      akeys accDict = processed →
      (∀ c ∈ processed, ∃ ch, alookup accDict c =
        some { tplOf (entryOf T c) with child_components := ch }) →
      ∃ cdicts, Rig.getTplGo rig' rest processed accDict = some (processed ++ rest, cdicts) ∧
        (∀ c ∈ processed ++ rest, ∃ ch, alookup cdicts c =
          some { tplOf (entryOf T c) with child_components := ch }) := by
  intro rest
  induction rest with
  | nil =>
    intro processed accDict _ _ _ _ hinv
    refine ⟨accDict, by simp [Rig.getTplGo], ?_⟩
    intro c hc
    rw [List.append_nil] at hc
    exact hinv c hc
  | cons comp rest' ih =>
    intro processed accDict hnd hwf hlook hkeys hinv
    obtain ⟨hwf1, hwf2⟩ := (wfGo_cons T processed comp rest').mp hwf
    obtain ⟨cd, hcd, hentryOf, _, hfn, hdisj⟩ := wfEntry_spec T processed comp hwf1
    have hcompnotmem : ¬ comp ∈ processed := fun hm =>
      (List.disjoint_of_nodup_append hnd) hm (List.mem_cons_self _ _)
    have hndassoc : ((processed ++ [comp]) ++ rest').Nodup := by
      rw [List.append_assoc, List.singleton_append]
      exact hnd
    have hcomp : alookup rig'.components comp
        = some (mkCompFromEntry lib (entryOf T comp)) :=
      hlook comp (List.mem_cons_self _ _)
    have hname : (mkCompFromEntry lib (entryOf T comp)).fullName = comp := by
      rw [mkCompFromEntry_fullName, hentryOf, hfn]
    have hloc : cd.parent_fullName = kEmpty → cd.parent_localName = kEmpty := by
      intro hp
      rcases hdisj with ⟨_, hl⟩ | ⟨hne, _⟩
      · exact hl
      · exact absurd hp hne
    have hser : compGetTemplateDict (mkCompFromEntry lib (entryOf T comp)) = tplOf cd := by
      rw [hentryOf]
      exact compGet_mkComp lib cd hloc
    have hset : aset accDict comp (tplOf cd) = accDict ++ [(comp, tplOf cd)] :=
      aset_not_mem_append _ _ _ (by rw [hkeys]; exact hcompnotmem)
    unfold Rig.getTplGo
    rw [hcomp]
    simp only [hname, hser]
    by_cases hp : cd.parent_fullName = kEmpty
    · have hpt : (tplOf cd).parent_fullName = kEmpty := hp
      rw [if_pos hpt]
      obtain ⟨cdicts, hgo, hres⟩ := ih (processed ++ [comp]) (accDict ++ [(comp, tplOf cd)])
        hndassoc hwf2
        (fun c hm => hlook c (List.mem_cons_of_mem _ hm))
        (by
          unfold akeys
          rw [List.map_append, ← hkeys]
          rfl)
        (by
          intro c hc
          rcases List.mem_append.mp hc with hc1 | hc2
          · obtain ⟨ch, hch⟩ := hinv c hc1
            refine ⟨ch, ?_⟩
            rw [alookup_append_of_some _ _ _ _ hch]
          · rw [List.mem_singleton] at hc2
            subst hc2
            refine ⟨[], ?_⟩
            rw [alookup_append_of_not_mem _ _ _ (by rw [hkeys]; exact hcompnotmem)]
            simp [alookup, hentryOf]
            rfl)
      rw [hset]
      refine ⟨cdicts, ?_, ?_⟩
      · rw [show (processed ++ [comp]) ++ rest' = processed ++ comp :: rest' by
          rw [List.append_assoc, List.singleton_append]] at hgo
        exact hgo
      · intro c hc
        refine hres c ?_
        rw [List.append_assoc, List.singleton_append]
        exact hc
    · have hpt : ¬ (tplOf cd).parent_fullName = kEmpty := hp
      rw [if_neg hpt]
      rcases hdisj with ⟨he, _⟩ | ⟨_, hpmem⟩
      · exact absurd he hp
      · obtain ⟨pch, hpch⟩ := hinv cd.parent_fullName hpmem
        have hplook : alookup (aset accDict comp (tplOf cd)) (tplOf cd).parent_fullName
            = some { tplOf (entryOf T cd.parent_fullName) with child_components := pch } := by
          rw [hset]
          exact alookup_append_of_some _ _ _ _ hpch
        rw [hplook]
        have hpne : cd.parent_fullName ≠ comp := fun he => hcompnotmem (he ▸ hpmem)
        have hkeys1 : akeys (aset accDict comp (tplOf cd)) = processed ++ [comp] := by
          rw [hset]
          unfold akeys
          rw [List.map_append, ← hkeys]
          rfl
        have hkeys2 : akeys (aset (aset accDict comp (tplOf cd))
            (tplOf cd).parent_fullName
            { { tplOf (entryOf T cd.parent_fullName) with child_components := pch } with
              child_components :=
                ({ tplOf (entryOf T cd.parent_fullName) with
                  child_components := pch } : CompDict).child_components ++ [comp] })
            = processed ++ [comp] := by
          rw [akeys_aset_mem]
          · exact hkeys1
          · rw [hkeys1]
            exact List.mem_append_left _ hpmem
        obtain ⟨cdicts, hgo, hres⟩ := ih (processed ++ [comp])
          (aset (aset accDict comp (tplOf cd)) (tplOf cd).parent_fullName
            { { tplOf (entryOf T cd.parent_fullName) with child_components := pch } with
              child_components :=
                ({ tplOf (entryOf T cd.parent_fullName) with
                  child_components := pch } : CompDict).child_components ++ [comp] })
          hndassoc hwf2
          (fun c hm => hlook c (List.mem_cons_of_mem _ hm))
          hkeys2
          (by
            intro c hc
            by_cases hcp : c = cd.parent_fullName
            · subst hcp
              refine ⟨pch ++ [comp], ?_⟩
              have hkey : (tplOf cd).parent_fullName = cd.parent_fullName := rfl
              rw [← hkey, alookup_aset_self]
            · rw [show ((tplOf cd).parent_fullName : String) = cd.parent_fullName from rfl,
                alookup_aset_ne _ _ _ _ (fun he => hcp he.symm)]
              rcases List.mem_append.mp hc with hc1 | hc2
              · obtain ⟨ch, hch⟩ := hinv c hc1
                refine ⟨ch, ?_⟩
                rw [hset]
                rw [alookup_append_of_some _ _ _ _ hch]
              · rw [List.mem_singleton] at hc2
                subst hc2
                refine ⟨[], ?_⟩
                rw [hset]
                rw [alookup_append_of_not_mem _ _ _ (by rw [hkeys]; exact hcompnotmem)]
                simp [alookup, hentryOf]
                rfl)
        refine ⟨cdicts, ?_, ?_⟩
        · rw [show (processed ++ [comp]) ++ rest' = processed ++ comp :: rest' by
            rw [List.append_assoc, List.singleton_append]] at hgo
          exact hgo
        · intro c hc
          refine hres c ?_
          rw [List.append_assoc, List.singleton_append]
          exact hc

/-- C1.  Template round-trip: on any guide graph populated by
set_from_dict from a well-formed template (into a fresh rig whose
declared options the template covers), get_guide_template_dict
succeeds and yields a document whose components list equals the
template's components list and whose entry for every component carries
the same parameter values and the same parent_fullName and
parent_localName linkage as the template entry. -/
theorem claim_C1 (lib : Lib) (rig : RigState) (T : TemplateDict) (rig' : RigState)
    (hwf : wfTemplate T = true)
    (hfresh : rig.components = [])
    (hnames : ∀ pn ∈ rig.paramNames, pn ∈ akeys rig.paramDefs)
    (hcov : ∀ pr ∈ rig.paramDefs, (alookup T.guide_root.param_values pr.1).isSome)
    (hset : Rig.set_from_dict lib rig T = some rig') :
    ∃ out, Rig.get_guide_template_dict lib rig' = some out ∧
      out.components_list = T.components_list ∧
      ∀ c ∈ T.components_list,
        ∃ cd cd', alookup T.components_dict c = some cd ∧
          alookup out.components_dict c = some cd' ∧
          cd'.param_values = cd.param_values ∧
          cd'.parent_fullName = cd.parent_fullName ∧
          cd'.parent_localName = cd.parent_localName := by
  obtain ⟨rig'', hset2, hcomps, hidx, hpn, hpk⟩ := set_from_dict_spec lib rig T hwf hfresh hcov
  rw [hset] at hset2
  have hr : rig' = rig'' := Option.some.inj hset2
  subst hr
  have hwf' := hwf
  rw [wfTemplate, Bool.and_eq_true] at hwf'
  obtain ⟨hndb, hwfgo⟩ := hwf'
  have hnd : T.components_list.Nodup := of_decide_eq_true hndb
  obtain ⟨cdicts, htgo, hres⟩ := getTplGo_spec lib T rig' T.components_list [] []
    (by simpa using hnd) hwfgo
    (by
      intro c hc
      rw [hcomps, alookup_map_self, if_pos hc])
    rfl
    (by intro c hc; simp at hc)
  rw [List.nil_append] at htgo hres
  obtain ⟨pv, hpv⟩ := getParamValuesGo_total rig'.toState rig'.toState.paramNames []
    (by
      intro pn hm
      rw [show rig'.toState.paramNames = rig'.paramNames from rfl, hpn] at hm
      rw [show rig'.toState.paramDefs = rig'.paramDefs from rfl]
      rw [hpk]
      exact hnames pn hm)
  refine ⟨{ guide_root := { tra := lib.modelTra, name := lib.modelName, param_values := pv }
            components_list := T.components_list
            components_dict := cdicts
            ctl_buffers := lib.ctlBuffers }, ?_, rfl, ?_⟩
  · unfold Rig.get_guide_template_dict Main.get_param_values
    rw [hpv, hidx, htgo]
  · intro c hc
    obtain ⟨ch, hch⟩ := hres c hc
    obtain ⟨l1, l2, _, hentry⟩ := wfGo_mem T T.components_list [] hwfgo c hc
    rw [List.nil_append] at hentry
    obtain ⟨cd, hcd, hentryOf, _, _, _⟩ := wfEntry_spec T l1 c hentry
    refine ⟨cd, { tplOf (entryOf T c) with child_components := ch }, hcd, hch, ?_, ?_, ?_⟩
    all_goals rw [hentryOf]; rfl

/-- The graph populated from the concrete witness template. -/
def rigC1 : RigState := (Rig.set_from_dict libW rigW TW).get rfl

/-- Witness for C1 on the concrete template. -/
theorem claim_C1_witness :
    ∃ out, Rig.get_guide_template_dict libW rigC1 = some out ∧
      out.components_list = TW.components_list ∧
      ∀ c ∈ TW.components_list,
        ∃ cd cd', alookup TW.components_dict c = some cd ∧
          alookup out.components_dict c = some cd' ∧
          cd'.param_values = cd.param_values ∧
          cd'.parent_fullName = cd.parent_fullName ∧
          cd'.parent_localName = cd.parent_localName :=
  claim_C1 libW rigW TW rigC1 (by decide) rfl (by decide) (by decide) rfl

/-- The comp_index value stored for a registered component (vnull when
the component or the value is missing; every drawn component has
one). -/
def ciOf (comps : List (String × CompGuide)) (n : String) : Value :=
  ((alookup comps n).bind (fun cg => alookup cg.paramValues kCompIndex)).getD Value.vnull

/-- Transitive closure of the seed list under the recorded
child_components relation of the registered components: the seeds plus
all their recorded descendants. -/
inductive InClosure (comps : List (String × CompGuide)) (seeds : List String) : String → Prop
  | seed {n : String} : n ∈ seeds → InClosure comps seeds n
  | child {p n : String} {cg : CompGuide} : InClosure comps seeds p →
      alookup comps p = some cg → n ∈ cg.child_components → InClosure comps seeds n

/-- Drawing-order well-formedness of a build-order list: every listed
component is registered with a comp_index value, appears only once,
and lists all its recorded children strictly after itself. -/
def topoIndexOK (comps : List (String × CompGuide)) : List String → Bool
  | [] => true
  | n :: rest =>
    (match alookup comps n with
     | none => false
     | some cg =>
       decide (∀ d ∈ cg.child_components, d ∈ rest)
       && decide (¬ n ∈ rest)
       && (alookup cg.paramValues kCompIndex).isSome)
    && topoIndexOK comps rest

/-- Unfolding of the drawing-order check at one listed position. -/
theorem topoIndexOK_split (comps : List (String × CompGuide)) (n : String) :
    ∀ (l1 l2 : List String), topoIndexOK comps (l1 ++ n :: l2) = true →
      ∃ cg ci, alookup comps n = some cg ∧
        (∀ d ∈ cg.child_components, d ∈ l2) ∧ ¬ n ∈ l2 ∧
        alookup cg.paramValues kCompIndex = some ci := by
  intro l1
  induction l1 with
  | nil =>
    intro l2 h
    rw [List.nil_append] at h
    unfold topoIndexOK at h
    rw [Bool.and_eq_true] at h
    obtain ⟨h1, _⟩ := h
    split at h1
    · exact absurd h1 (by simp)
    · rename_i cg hcg
      rw [Bool.and_eq_true, Bool.and_eq_true] at h1
      obtain ⟨⟨hch, hnin⟩, hci⟩ := h1
      obtain ⟨ci, hci'⟩ := Option.isSome_iff_exists.mp hci
      exact ⟨cg, ci, hcg, fun d hd => of_decide_eq_true hch d hd,
        of_decide_eq_true hnin, hci'⟩
  | cons q l1' ih =>
    intro l2 h
    rw [List.cons_append] at h
    unfold topoIndexOK at h
    rw [Bool.and_eq_true] at h
    exact ih l2 h.2

/-- In a drawing-order list, the registered parent of the component at
the head of the unprocessed part has already been processed. -/
theorem topo_parent_done (comps : List (String × CompGuide))
    (done rest' : List String) (n p : String) (cgp : CompGuide)
    (htopo : topoIndexOK comps (done ++ n :: rest') = true)
    (hp : p ∈ done ++ n :: rest')
    (hcgp : alookup comps p = some cgp)
    (hchild : n ∈ cgp.child_components) : p ∈ done := by
  rcases List.mem_append.mp hp with hd | hr
  · exact hd
  · exfalso
    obtain ⟨cgn, cin, hcgn, hchn, hnotn, hcin⟩ := topoIndexOK_split comps n done rest' htopo
    obtain ⟨pre, l2, hsplit⟩ := List.append_of_mem hr
    have hfull : done ++ n :: rest' = (done ++ pre) ++ p :: l2 := by
      rw [hsplit, List.append_assoc]
    obtain ⟨cg2, ci2, hcg2, hch2, _, _⟩ := topoIndexOK_split comps p (done ++ pre) l2
      (by rw [← hfull]; exact htopo)
    rw [hcgp] at hcg2
    have hcgeq : cgp = cg2 := Option.some.inj hcg2
    have hnl2 : n ∈ l2 := hch2 n (hcgeq ▸ hchild)
    have hnrest : n ∈ rest' := by
      cases pre with
      | nil =>
        rw [List.nil_append] at hsplit
        injection hsplit with h1 h2
        rw [h2]
        exact hnl2
      | cons q pre' =>
        rw [List.cons_append] at hsplit
        injection hsplit with h1 h2
        rw [h2]
        exact List.mem_append_right _ (List.mem_cons_of_mem _ hnl2)
    exact hnotn hnrest

/-- The fallback ladder always produces a parent node. -/
theorem stepP2_isSome (ip : Option Nat) (model : Nat) (p1 : Option Nat) :
    (stepP2 ip model p1).isSome = true := by
  unfold stepP2
  split_ifs with h1 h2
  · exact h1.2
  · rfl
  · cases p1 with
    | none => exact absurd rfl h2
    | some v => rfl

/-- The partial re-rooting ladder keeps the parent node present. -/
theorem stepP3_isSome (seeds : List String) (n : String) (ip : Option Nat)
    (model : Nat) (p2 : Option Nat) (h : p2.isSome = true) :
    (stepP3 seeds n ip model p2).isSome = true := by
  unfold stepP3
  split_ifs with h1 h2 h3
  · exact h1.2
  · rfl
  · exact h3.2
  · exact h

/-- A component named in the original seed list is re-rooted at
initParent when given and at the model root otherwise. -/
theorem stepP3_seed (seeds : List String) (n : String) (ip : Option Nat)
    (model : Nat) (p2 : Option Nat) (hs : n ∈ seeds) :
    stepP3 seeds n ip model p2 = some (ip.getD model) := by
  cases ip with
  | some i =>
    unfold stepP3
    rw [if_pos ⟨hs, rfl⟩]
    rfl
  | none =>
    unfold stepP3
    rw [if_neg (fun h => by simpa using h.2)]
    rw [if_pos ⟨hs, rfl⟩]
    rfl

/-- One partial-mode iteration on a component already in the partial
list: its children are appended, its index is recorded and it is
drawn. -/
theorem drawStep_mem (lib : Lib) (comps : List (String × CompGuide))
    (seeds : List String) (ip : Option Nat) (model : Nat) (acc : DrawAcc)
    (n : String) (cg : CompGuide) (ci : Value) (pnode : Nat)
    (hcg : alookup comps n = some cg)
    (hmem : n ∈ acc.pcs)
    (hci : alookup cg.paramValues kCompIndex = some ci)
    (hp3 : stepP3 seeds n ip model (stepP2 ip model (stepP1 lib model acc cg))
      = some pnode) :
    drawStep lib comps seeds true ip model acc n =
      some { parent := some pnode, pcs := acc.pcs ++ cg.child_components,
             idx := acc.idx ++ [ci], trace := acc.trace ++ [(n, pnode)] } := by
  simp only [drawStep, hcg]
  rw [if_pos (⟨trivial, hmem⟩ : True ∧ n ∈ acc.pcs)]
  simp only [hp3, hci]

/-- One partial-mode iteration on a component outside the partial
list: only the carried parent changes. -/
theorem drawStep_skip (lib : Lib) (comps : List (String × CompGuide))
    (seeds : List String) (ip : Option Nat) (model : Nat) (acc : DrawAcc)
    (n : String) (cg : CompGuide)
    (hcg : alookup comps n = some cg)
    (hmem : ¬ n ∈ acc.pcs) :
    drawStep lib comps seeds true ip model acc n =
      some { acc with parent := stepP2 ip model (stepP1 lib model acc cg) } := by
  simp only [drawStep, hcg]
  rw [if_neg (fun h => hmem h.2)]
  rw [if_pos trivial]

/-- Master characterization of the partial-mode component loop: under
drawing-order well-formedness the loop succeeds; the partial list ends
up holding the seeds plus the recorded children of every visited
closure member; a component is drawn exactly when it is listed and in
the closure; drawn seeds are parented at initParent when given and at
the model root otherwise; and the index list mirrors the comp_index of
the drawn components. -/
theorem drawLoop_partial_spec (lib : Lib) (comps : List (String × CompGuide))
    (seeds : List String) (ip : Option Nat) (model : Nat) :
    ∀ (rest done : List String) (acc : DrawAcc),
      topoIndexOK comps (done ++ rest) = true →
      (∀ k cg, alookup comps k = some cg → k ∈ done ++ rest) →
      (∀ m, m ∈ acc.pcs ↔ (m ∈ seeds ∨ ∃ p cg, p ∈ done ∧ InClosure comps seeds p ∧
          alookup comps p = some cg ∧ m ∈ cg.child_components)) →
      acc.idx = acc.trace.map (fun e => ciOf comps e.1) →
      ∃ acc', drawLoop lib comps seeds true ip model acc rest = some acc' ∧
        (∀ m, m ∈ acc'.pcs ↔ (m ∈ seeds ∨ ∃ p cg, p ∈ done ++ rest ∧
            InClosure comps seeds p ∧ alookup comps p = some cg ∧
            m ∈ cg.child_components)) ∧
        (∀ m, (∃ pn, (m, pn) ∈ acc'.trace) ↔
          ((∃ pn, (m, pn) ∈ acc.trace) ∨ (m ∈ rest ∧ InClosure comps seeds m))) ∧
        (∀ m pn, (m, pn) ∈ acc'.trace → (m, pn) ∈ acc.trace ∨
          (m ∈ seeds → pn = ip.getD model)) ∧
        acc'.idx = acc'.trace.map (fun e => ciOf comps e.1) := by
  intro rest
  induction rest with
  | nil =>
    intro done acc htopo hsub hI hidx
    refine ⟨acc, rfl, ?_, ?_, ?_, hidx⟩
    · intro m
      rw [List.append_nil]
      exact hI m
    · intro m
      simp
    · intro m pn hm
      exact Or.inl hm
  | cons n rest' ih =>
    intro done acc htopo hsub hI hidx
    obtain ⟨cg, ci, hcg, hch, hnr, hci⟩ := topoIndexOK_split comps n done rest' htopo
    have hassoc : done ++ n :: rest' = (done ++ [n]) ++ rest' := by
      rw [List.append_assoc, List.singleton_append]
    have htopo' : topoIndexOK comps ((done ++ [n]) ++ rest') = true := by
      rw [← hassoc]
      exact htopo
    have hsub' : ∀ k cg2, alookup comps k = some cg2 → k ∈ (done ++ [n]) ++ rest' := by
      intro k cg2 hk
      rw [← hassoc]
      exact hsub k cg2 hk
    by_cases hmem : n ∈ acc.pcs
    · have hInC : InClosure comps seeds n := by
        rcases (hI n).mp hmem with hs | ⟨p, cgp, _, hpc, hpl, hpch⟩
        · exact InClosure.seed hs
        · exact InClosure.child hpc hpl hpch
      obtain ⟨pnode, hp3⟩ := Option.isSome_iff_exists.mp
        (stepP3_isSome seeds n ip model _ (stepP2_isSome ip model _))
      have hstep := drawStep_mem lib comps seeds ip model acc n cg ci pnode
        hcg hmem hci hp3
      have hciOf : ciOf comps n = ci := by
        rw [ciOf, hcg]
        simp [hci]
      have hI1 : ∀ m, m ∈ acc.pcs ++ cg.child_components ↔
          (m ∈ seeds ∨ ∃ p cgp, p ∈ done ++ [n] ∧ InClosure comps seeds p ∧
            alookup comps p = some cgp ∧ m ∈ cgp.child_components) := by
        intro m
        constructor
        · intro hm
          rcases List.mem_append.mp hm with hm1 | hm2
          · rcases (hI m).mp hm1 with hs | ⟨p, cgp, hpd, hic, hlp, hchm⟩
            · exact Or.inl hs
            · exact Or.inr ⟨p, cgp, List.mem_append_left _ hpd, hic, hlp, hchm⟩
          · exact Or.inr ⟨n, cg, List.mem_append_right _ (List.mem_singleton.mpr rfl),
              hInC, hcg, hm2⟩
        · intro h
          rcases h with hs | ⟨p, cgp, hpd, hic, hlp, hchm⟩
          · exact List.mem_append_left _ ((hI m).mpr (Or.inl hs))
          · rcases List.mem_append.mp hpd with hpd1 | hpd2
            · exact List.mem_append_left _
                ((hI m).mpr (Or.inr ⟨p, cgp, hpd1, hic, hlp, hchm⟩))
            · have hpn : p = n := List.mem_singleton.mp hpd2
              subst hpn
              rw [hcg] at hlp
              have hcgeq : cg = cgp := Option.some.inj hlp
              rw [← hcgeq] at hchm
              exact List.mem_append_right _ hchm
      obtain ⟨acc', hloop, hI', htr', hpar', hidx'⟩ := ih (done ++ [n])
        { parent := some pnode, pcs := acc.pcs ++ cg.child_components,
          idx := acc.idx ++ [ci], trace := acc.trace ++ [(n, pnode)] }
        htopo' hsub' hI1
        (by
          show acc.idx ++ [ci] =
            (acc.trace ++ [(n, pnode)]).map (fun e => ciOf comps e.1)
          rw [List.map_append, ← hidx]
          simp [hciOf])
      rw [← hassoc] at hI'
      refine ⟨acc', ?_, hI', ?_, ?_, hidx'⟩
      · unfold drawLoop
        rw [hstep]
        exact hloop
      · intro m
        rw [htr' m]
        constructor
        · rintro (⟨pn, hpn⟩ | ⟨hm, hic⟩)
          · rcases List.mem_append.mp hpn with h1 | h2
            · exact Or.inl ⟨pn, h1⟩
            · have hpair : (m, pn) = (n, pnode) := List.mem_singleton.mp h2
              have hmn : m = n := (Prod.ext_iff.mp hpair).1
              subst hmn
              exact Or.inr ⟨List.mem_cons_self _ _, hInC⟩
          · exact Or.inr ⟨List.mem_cons_of_mem _ hm, hic⟩
        · rintro (⟨pn, hpn⟩ | ⟨hm, hic⟩)
          · exact Or.inl ⟨pn, List.mem_append_left _ hpn⟩
          · rcases List.mem_cons.mp hm with heq | hm'
            · subst heq
              exact Or.inl ⟨pnode, List.mem_append_right _ (List.mem_singleton.mpr rfl)⟩
            · exact Or.inr ⟨hm', hic⟩
      · intro m pn hmt
        rcases hpar' m pn hmt with hin | himp
        · rcases List.mem_append.mp hin with h1 | h2
          · exact Or.inl h1
          · have hpair : (m, pn) = (n, pnode) := List.mem_singleton.mp h2
            have hmn : m = n := (Prod.ext_iff.mp hpair).1
            have hpe : pn = pnode := (Prod.ext_iff.mp hpair).2
            refine Or.inr (fun hms => ?_)
            have hre := stepP3_seed seeds n ip model
              (stepP2 ip model (stepP1 lib model acc cg)) (hmn ▸ hms)
            rw [hp3] at hre
            have hpv : pnode = ip.getD model := Option.some.inj hre
            rw [hpe, hpv]
        · exact Or.inr himp
    · have hnInC : ¬ InClosure comps seeds n := by
        intro hic
        cases hic with
        | seed hs => exact hmem ((hI n).mpr (Or.inl hs))
        | child hpc hpl hpch =>
          rename_i p cgp
          exact hmem ((hI n).mpr (Or.inr ⟨p, cgp,
            topo_parent_done comps done rest' n p cgp htopo (hsub p cgp hpl) hpl hpch,
            hpc, hpl, hpch⟩))
      have hstep := drawStep_skip lib comps seeds ip model acc n cg hcg hmem
      have hI1 : ∀ m, m ∈ acc.pcs ↔
          (m ∈ seeds ∨ ∃ p cgp, p ∈ done ++ [n] ∧ InClosure comps seeds p ∧
            alookup comps p = some cgp ∧ m ∈ cgp.child_components) := by
        intro m
        rw [hI m]
        constructor
        · rintro (hs | ⟨p, cgp, hpd, hic, hlp, hchm⟩)
          · exact Or.inl hs
          · exact Or.inr ⟨p, cgp, List.mem_append_left _ hpd, hic, hlp, hchm⟩
        · rintro (hs | ⟨p, cgp, hpd, hic, hlp, hchm⟩)
          · exact Or.inl hs
          · rcases List.mem_append.mp hpd with h1 | h2
            · exact Or.inr ⟨p, cgp, h1, hic, hlp, hchm⟩
            · have hpn : p = n := List.mem_singleton.mp h2
              subst hpn
              exact absurd hic hnInC
      obtain ⟨acc', hloop, hI', htr', hpar', hidx'⟩ := ih (done ++ [n])
        { acc with parent := stepP2 ip model (stepP1 lib model acc cg) }
        htopo' hsub' hI1 hidx
      rw [← hassoc] at hI'
      refine ⟨acc', ?_, hI', ?_, hpar', hidx'⟩
      · unfold drawLoop
        rw [hstep]
        exact hloop
      · intro m
        rw [htr' m]
        constructor
        · rintro (h1 | ⟨hm, hic⟩)
          · exact Or.inl h1
          · exact Or.inr ⟨List.mem_cons_of_mem _ hm, hic⟩
        · rintro (h1 | ⟨hm, hic⟩)
          · exact Or.inl h1
          · rcases List.mem_cons.mp hm with heq | hm'
            · subst heq
              exact absurd hic hnInC
            · exact Or.inr ⟨hm', hic⟩

/-- C2.  Partial build containment: on a guide graph whose build order
is drawing-order well formed (every parent listed before its children)
and lists every registered component, draw_guide with a non-empty seed
list succeeds, returns as partial list exactly the transitive closure
of the seeds under the recorded child_components relation, draws
exactly the listed components inside that closure and no other
registered component, and returns the comp_index value of each drawn
component. -/
theorem claim_C2 (lib : Lib) (rig : RigState) (seeds : List String)
    (hne : seeds ≠ [])
    (htopo : topoIndexOK rig.components rig.componentsIndex = true)
    (hsub : ∀ k ∈ akeys rig.components, k ∈ rig.componentsIndex) :
    ∃ out, draw_guide lib rig (some seeds) none = some out ∧
      ∃ pcs, out.pcsOut = some pcs ∧
        (∀ m, m ∈ pcs ↔ InClosure rig.components seeds m) ∧
        (∀ m, (∃ pn, (m, pn) ∈ out.trace) ↔
          (m ∈ rig.componentsIndex ∧ InClosure rig.components seeds m)) ∧
        out.idxOut = out.trace.map (fun e => ciOf rig.components e.1) := by
  have hsubL : ∀ k cg, alookup rig.components k = some cg → k ∈ rig.componentsIndex := by
    intro k cg hk
    exact hsub k ((alookup_isSome_iff_mem_akeys _ _).mp (by rw [hk]; rfl))
  have hp : decide (seeds ≠ []) = true := decide_eq_true hne
  obtain ⟨acc', hloop, hI', htr', hpar', hidx'⟩ := drawLoop_partial_spec lib rig.components
    seeds none lib.freshModelId rig.componentsIndex []
    { parent := none, pcs := seeds, idx := [], trace := [] }
    (by rw [List.nil_append]; exact htopo)
    (by
      intro k cg hk
      rw [List.nil_append]
      exact hsubL k cg hk)
    (by
      intro m
      constructor
      · intro hm
        exact Or.inl hm
      · rintro (hs | ⟨p, cgp, hpd, _⟩)
        · exact hs
        · exact absurd hpd (List.not_mem_nil p))
    rfl
  rw [List.nil_append] at hI'
  refine ⟨{ pcsOut := some acc'.pcs, idxOut := acc'.idx, trace := acc'.trace,
            model := lib.freshModelId }, ?_, acc'.pcs, rfl, ?_, ?_, hidx'⟩
  · show drawFinish (decide (seeds ≠ [])) lib.freshModelId
        (drawLoop lib rig.components seeds (decide (seeds ≠ [])) none lib.freshModelId
          { parent := none, pcs := seeds, idx := [], trace := [] }
          rig.componentsIndex) = _
    rw [hp, hloop]
    rfl
  · intro m
    rw [hI' m]
    constructor
    · rintro (hs | ⟨p, cgp, hpd, hic, hlp, hchm⟩)
      · exact InClosure.seed hs
      · exact InClosure.child hic hlp hchm
    · intro hic
      cases hic with
      | seed hs => exact Or.inl hs
      | child hpc hpl hpch =>
        rename_i p cgp
        exact Or.inr ⟨p, cgp, hsubL p cgp hpl, hpc, hpl, hpch⟩
  · intro m
    rw [htr' m]
    constructor
    · rintro (⟨pn, hpn⟩ | ⟨hm, hic⟩)
      · exact absurd hpn (List.not_mem_nil _)
      · exact ⟨hm, hic⟩
    · rintro ⟨hm, hic⟩
      exact Or.inr ⟨hm, hic⟩

/-- Guide of component b_C0 in the partial-draw witness graph: parent
of x_C0. -/
def cgB2 : CompGuide :=
  { cgDefault with
    fullName := nBC0
    child_components := [nXC0]
    paramValues := [(kCompIndex, Value.vint 0)] }

/-- Guide of component x_C0 in the partial-draw witness graph: child
of b_C0. -/
def cgX2 : CompGuide :=
  { cgDefault with
    fullName := nXC0
    parentComponent := some nBC0
    paramValues := [(kCompIndex, Value.vint 1)] }

/-- Guide of component d_C0 in the partial-draw witness graph:
registered but outside the closure of the seed. -/
def cgD2 : CompGuide :=
  { cgDefault with fullName := nDC0, paramValues := [(kCompIndex, Value.vint 2)] }

/-- A three-component graph used to instantiate the partial-draw
claims: b_C0 with child x_C0, and an unrelated d_C0. -/
def rigC2 : RigState :=
  { rigW with
    components := [(nBC0, cgB2), (nXC0, cgX2), (nDC0, cgD2)]
    componentsIndex := [nBC0, nXC0, nDC0] }

/-- Witness for C2 on the concrete three-component graph with seed
b_C0. -/
theorem claim_C2_witness :
    ∃ out, draw_guide libW rigC2 (some [nBC0]) none = some out ∧
      ∃ pcs, out.pcsOut = some pcs ∧
        (∀ m, m ∈ pcs ↔ InClosure rigC2.components [nBC0] m) ∧
        (∀ m, (∃ pn, (m, pn) ∈ out.trace) ↔
          (m ∈ rigC2.componentsIndex ∧ InClosure rigC2.components [nBC0] m)) ∧
        out.idxOut = out.trace.map (fun e => ciOf rigC2.components e.1) :=
  claim_C2 libW rigC2 [nBC0] (by decide) (by decide) (by decide)

/-- C5.  Seed re-rooting: in a partial draw on a drawing-order
well-formed graph, every drawn component named in the original seed
list is parented under initParent when one is supplied and under the
model root otherwise, regardless of its recorded parentComponent; and
no component outside the closure of the seeds (in particular no
ancestor of a seed outside the expanded set) is drawn. -/
theorem claim_C5 (lib : Lib) (rig : RigState) (seeds : List String)
    (ip : Option Nat) (model : Nat)
    (hne : seeds ≠ [])
    (htopo : topoIndexOK rig.components rig.componentsIndex = true)
    (hsub : ∀ k ∈ akeys rig.components, k ∈ rig.componentsIndex)
    (hm : guideModelOf lib ip = some model) :
    ∃ out, draw_guide lib rig (some seeds) ip = some out ∧
      out.model = model ∧
      (∀ s ∈ seeds, s ∈ rig.componentsIndex → ∃ pn, (s, pn) ∈ out.trace) ∧
      (∀ m pn, (m, pn) ∈ out.trace → m ∈ seeds → pn = ip.getD model) ∧
      (∀ m, ¬ InClosure rig.components seeds m → ∀ pn, ¬ (m, pn) ∈ out.trace) := by
  have hsubL : ∀ k cg, alookup rig.components k = some cg → k ∈ rig.componentsIndex := by
    intro k cg hk
    exact hsub k ((alookup_isSome_iff_mem_akeys _ _).mp (by rw [hk]; rfl))
  have hp : decide (seeds ≠ []) = true := decide_eq_true hne
  obtain ⟨acc', hloop, hI', htr', hpar', hidx'⟩ := drawLoop_partial_spec lib rig.components
    seeds ip model rig.componentsIndex []
    { parent := none, pcs := seeds, idx := [], trace := [] }
    (by rw [List.nil_append]; exact htopo)
    (by
      intro k cg hk
      rw [List.nil_append]
      exact hsubL k cg hk)
    (by
      intro m
      constructor
      · intro hmm
        exact Or.inl hmm
      · rintro (hs | ⟨p, cgp, hpd, _⟩)
        · exact hs
        · exact absurd hpd (List.not_mem_nil p))
    rfl
  refine ⟨{ pcsOut := some acc'.pcs, idxOut := acc'.idx, trace := acc'.trace,
            model := model }, ?_, rfl, ?_, ?_, ?_⟩
  · show drawWithModel lib rig seeds (decide (seeds ≠ [])) ip (guideModelOf lib ip) = _
    rw [hm]
    show drawFinish (decide (seeds ≠ [])) model
        (drawLoop lib rig.components seeds (decide (seeds ≠ [])) ip model
          { parent := none, pcs := seeds, idx := [], trace := [] }
          rig.componentsIndex) = _
    rw [hp, hloop]
    rfl
  · intro s hs hsl
    rcases (htr' s).mpr (Or.inr ⟨hsl, InClosure.seed hs⟩) with ⟨pn, hpn⟩
    exact ⟨pn, hpn⟩
  · intro m pn hmt
    rcases hpar' m pn hmt with hin | himp
    · exact absurd hin (List.not_mem_nil _)
    · exact himp
  · intro m hnic pn hmt
    rcases (htr' m).mp ⟨pn, hmt⟩ with ⟨pn', hpn'⟩ | ⟨_, hic⟩
    · exact absurd hpn' (List.not_mem_nil _)
    · exact hnic hic

/-- Witness for C5 on the concrete three-component graph with seed
x_C0, whose recorded parent b_C0 is not requested: x_C0 is drawn at
the model root and b_C0 and d_C0 are not drawn. -/
theorem claim_C5_witness :
    ∃ out, draw_guide libW rigC2 (some [nXC0]) none = some out ∧
      out.model = libW.freshModelId ∧
      (∀ s ∈ [nXC0], s ∈ rigC2.componentsIndex → ∃ pn, (s, pn) ∈ out.trace) ∧
      (∀ m pn, (m, pn) ∈ out.trace → m ∈ [nXC0] → pn = (none : Option Nat).getD libW.freshModelId) ∧
      (∀ m, ¬ InClosure rigC2.components [nXC0] m → ∀ pn, ¬ (m, pn) ∈ out.trace) :=
  claim_C5 libW rigC2 [nXC0] none libW.freshModelId (by decide) (by decide) (by decide) rfl
